import Mathlib

/-!
Verification development for the tepsonic-database-sync inventory
reconciliation engine.

The source is three express routers sharing one pipeline shape:
* a generic vendor sync (`syncVendor`) that creates catalog products and
  conditions on demand,
* a restricted "Wholecell" sync (`syncWholecellVendor`) that only accepts
  items whose product already exists in the catalog, and
* a products route (not needed by the claims below).

The shallow embedding below translates the reconciliation logic into pure
Lean functions: MongoDB collections become lists, `ObjectId` values become
`Nat` drawn from explicit counters, `Date` fields are dropped (no claim
mentions time), and the `$regex ... $options: "i"` queries are modelled as
case-insensitive substring tests, which is exact for the escaped or
special-character-free patterns the source builds.  JS string falsiness
(`x || y`) is modelled by `jsOr` with `""` standing for an absent field.

One point deserves emphasis: inside the generic `syncVendor` the identifier
`condition` is referenced (record lookup filter, update filter, and the
current-combinations key) but never bound anywhere in its module, so
evaluating it throws a `ReferenceError` at runtime.  The embedding models
that unbound identifier by `conditionVar : Except String Nat`, which is
always an error, exactly as the runtime behaves.
-/

namespace TepSync

/-- JS `a || b` on strings, with `""` standing for a missing/falsy field. -/
def jsOr (a b : String) : String := if a = "" then b else a

/-- ASCII whitespace, the only whitespace the feeds contain. -/
def isWs (c : Char) : Bool := c = ' ' || c = '\t' || c = '\n' || c = '\r'

/-- `String.prototype.trim` (restricted to ASCII whitespace). -/
def strTrim (s : String) : String :=
  ⟨((s.data.dropWhile isWs).reverse.dropWhile isWs).reverse⟩

/-- ASCII lowering of one character; the feeds' names are ASCII, where JS
`toLowerCase` agrees with this. -/
def charLower (c : Char) : Char :=
  if 'A' ≤ c && c ≤ 'Z' then Char.ofNat (c.toNat + 32) else c

/-- `String.prototype.toLowerCase` on ASCII strings. -/
def strLower (s : String) : String := ⟨s.data.map charLower⟩

/-- JS `String.prototype.length` (UTF-16 units; for the ASCII names at
hand, the character count). -/
def strLength (s : String) : Nat := s.data.length

/-- `split(", ")` on character lists (the only separator the source
splits on), accumulating the current token in reverse. -/
def splitCommaSpace : List Char → List Char → List (List Char)
  | [], acc => [acc.reverse]
  | [c], acc => [(c :: acc).reverse]
  | c1 :: c2 :: cs, acc =>
      if c1 = ',' && c2 = ' ' then acc.reverse :: splitCommaSpace cs []
      else splitCommaSpace (c2 :: cs) (c1 :: acc)

/-- `String.prototype.split(", ")`. -/
def strSplitCommaSpace (s : String) : List String :=
  (splitCommaSpace s.data []).map (fun l => ⟨l⟩)

/-- `p` occurs as a prefix of `l` (character lists). -/
def startsWith : List Char → List Char → Bool
  | [], _ => true
  | _ :: _, [] => false
  | p :: ps, c :: cs => p = c && startsWith ps cs

/-- `p` occurs as a contiguous substring of `l` (character lists);
JS `String.prototype.includes`. -/
def containsSub : List Char → List Char → Bool
  | p, [] => p.isEmpty
  | p, c :: cs => startsWith p (c :: cs) || containsSub p cs

/-- Case-sensitive substring test on strings (JS `hay.includes(pat)`). -/
def strIncludes (hay pat : String) : Bool :=
  containsSub pat.toList hay.toList

/-- Case-insensitive substring test: models a `$regex` query whose pattern
is a literal string with the `i` option. -/
def strIncludesCI (hay pat : String) : Bool :=
  strIncludes (strLower hay) (strLower pat)

/-- Case-insensitive whole-string match: models `$regex: ^escaped$` with
the `i` option, as built by `findExistingProduct`. -/
def strEqCI (a b : String) : Bool :=
  strLower a = strLower b

/-! ## Raw vendor feed data (one item of `resp.data.data`) -/

/-- `item.product_variation.product` — missing string fields are `""`. -/
structure RawProduct where
  manufacturer : String
  model : String
  color : String
  capacity : String
  variant : String
deriving Repr, DecidableEq

/-- `item.product_variation`. -/
structure RawVariation where
  grade : String
  sku : String
  product : RawProduct
deriving Repr, DecidableEq

/-- One raw vendor item.  `total_price_paid` is kept in the vendor's own
unit (cents for the Wholecell adapter, dollars for the generic one). -/
structure RawItem where
  id : Nat
  status : String
  esn : String
  hex_id : String
  total_price_paid : Nat
  product_variation : RawVariation
deriving Repr, DecidableEq

/-! ## Catalog and persisted records -/

/-- A `tep_admin_products` document.  `storage` models
`specifications?.storage` (`none` when the path is absent). -/
structure AdminProduct where
  oid : Nat
  name : String
  manufacturer : String
  model : String
  category : String
  imagesByColor : List String
  storage : Option String
deriving Repr, DecidableEq

/-- A per-(color, variant) stock option inside a vendor product record. -/
structure SelOpt where
  color : String
  variant : String
  stock : Nat
  price : Nat
  discount : Nat
  uniqueNumbers : List String
  oid : Nat
deriving Repr, DecidableEq

/-- A persisted `tep_vendor_products` document. -/
structure VendorRecord where
  oid : Nat
  vendorId : Nat
  product : Nat
  condition : Nat
  selectedOptions : List SelOpt
  database : Option String
deriving Repr, DecidableEq

/-! ## Association maps (JS `Map` with string keys, insertion order) -/

/-- JS `map.has(k)`. -/
def hasKey (m : List (String × α)) (k : String) : Bool :=
  m.any (fun p => p.1 = k)

/-- JS `map.get(k)`. -/
def getKey? (m : List (String × α)) (k : String) : Option α :=
  (m.find? (fun p => p.1 = k)).map (·.2)

/-- JS `map.set(k, v)`: replace in place when present, append otherwise. -/
def setKey (m : List (String × α)) (k : String) (v : α) : List (String × α) :=
  if hasKey m k then m.map (fun p => if p.1 = k then (k, v) else p)
  else m ++ [(k, v)]

/-- Mutation of the value already stored under `k` (the source mutates the
object returned by `map.get`); keys are unique by construction wherever
this is used. -/
def modifyKey (m : List (String × α)) (k : String) (f : α → α) : List (String × α) :=
  m.map (fun p => if p.1 = k then (p.1, f p.2) else p)

/-! ## Grouper (`groupItemsByProductAndCondition`, identical in both routers) -/

/-- One group of raw items sharing a `manufacturer_model_grade` key. -/
structure ItemGroup where
  product : RawProduct
  variation : RawVariation
  condition : String
  items : List RawItem
deriving Repr, DecidableEq

/-- The `manufacturer_model` part of the group key (trimmed, as in the
source's template literal). -/
def productKeyOf (item : RawItem) : String :=
  let product := item.product_variation.product
  strTrim (product.manufacturer ++ "_" ++ product.model)

/-- The full `productKey_conditionKey` group key. -/
def groupKeyOf (item : RawItem) : String :=
  productKeyOf item ++ "_" ++ jsOr item.product_variation.grade "Unknown"

/-- One `forEach` step of `groupItemsByProductAndCondition`. -/
def addToGroup (acc : List (String × ItemGroup)) (item : RawItem) :
    List (String × ItemGroup) :=
  let k := groupKeyOf item
  if hasKey acc k then
    modifyKey acc k (fun g => { g with items := g.items ++ [item] })
  else
    acc ++ [(k, { product := item.product_variation.product,
                  variation := item.product_variation,
                  condition := jsOr item.product_variation.grade "Unknown",
                  items := [item] })]

/-- `groupItemsByProductAndCondition(items)`: a JS `Map` in insertion
order, modelled as an association list. -/
def groupItemsByProductAndCondition (items : List RawItem) :
    List (String × ItemGroup) :=
  items.foldl addToGroup []

/-! ## Option aggregation, generic adapter (`createSelectedOptions`) -/

/-- Variant descriptor of the generic adapter:
`product.variant || (capacity ? capacity + "GB" : "") || "Standard"`. -/
def genericVariantOf (product : RawProduct) : String :=
  let capacity := if product.capacity = "" then "" else product.capacity ++ "GB"
  jsOr product.variant (jsOr capacity "Standard")

/-- The unit identifier appended for a contributing item:
`item.esn || item.hex_id || variation.sku || "item_" + item.id`. -/
def uniqueNumberOf (item : RawItem) : String :=
  jsOr item.esn (jsOr item.hex_id
    (jsOr item.product_variation.sku ("item_" ++ toString item.id)))

/-- One `forEach` step of `createSelectedOptions`; the `Nat` component is
the fresh-`ObjectId` counter for newly created options. -/
def createSelectedOptionsStep (acc : List (String × SelOpt) × Nat)
    (item : RawItem) : List (String × SelOpt) × Nat :=
  let product := item.product_variation.product
  let color := jsOr product.color "Unknown"
  let variant := genericVariantOf product
  let key := color ++ "_" ++ variant
  let (m, c) := acc
  let (m, c) :=
    if hasKey m key then (m, c)
    else (m ++ [(key, { color := color, variant := variant, stock := 0,
                        price := item.total_price_paid, discount := 0,
                        uniqueNumbers := [], oid := c })], c + 1)
  if item.status ≠ "Sold" then
    (modifyKey m key (fun o =>
      { o with stock := o.stock + 1,
               uniqueNumbers := o.uniqueNumbers ++ [uniqueNumberOf item] }), c)
  else (m, c)

/-- `createSelectedOptions(items)` of the generic adapter, threading the
fresh-id counter. -/
def createSelectedOptions (items : List RawItem) (c : Nat) :
    List SelOpt × Nat :=
  let (m, c') := items.foldl createSelectedOptionsStep ([], c)
  (m.map (·.2), c')

/-! ## Product resolution -/

/-- Candidate catalog name for a raw product:
`` `${manufacturer || ""} ${model || ""}`.trim() ``. -/
def candidateNameOf (productData : RawProduct) : String :=
  strTrim (productData.manufacturer ++ " " ++ productData.model)

/-- `findOrCreateProduct(productData, db)` of the generic adapter: a single
case-insensitive *substring* regex lookup (`$regex: name, $options: "i"`),
creating a new catalog product when nothing matches.  Returns the product,
the (possibly extended) catalog, and the next fresh id. -/
def findOrCreateProduct (productData : RawProduct)
    (catalog : List AdminProduct) (nextId : Nat) :
    AdminProduct × List AdminProduct × Nat :=
  let name := candidateNameOf productData
  match catalog.find? (fun p => strIncludesCI p.name name) with
  | some product => (product, catalog, nextId)
  | none =>
      let newProduct : AdminProduct :=
        { oid := nextId, name := name,
          manufacturer := jsOr productData.manufacturer "Unknown",
          model := productData.model,
          category := jsOr productData.manufacturer "Unknown",
          imagesByColor := [], storage := none }
      (newProduct, catalog ++ [newProduct], nextId + 1)

/-- `findExistingProduct(productData, adminProductsCollection)` of the
Wholecell adapter: anchored case-insensitive exact match first, then, only
when the candidate name is longer than 3 characters, a case-insensitive
substring match; never creates anything. -/
def findExistingProduct (productData : RawProduct)
    (admins : List AdminProduct) : Option AdminProduct :=
  let name := candidateNameOf productData
  match admins.find? (fun p => strEqCI p.name name) with
  | some product => some product
  | none =>
      if strLength name > 3 then
        admins.find? (fun p => strIncludesCI p.name name)
      else none

/-! ## Option aggregation, Wholecell adapter -/

/-- `findMatchingStorageSpec(storageSpec, capacity)`: first token of the
comma-separated storage specification containing `capacity + "GB"`, then
first token containing the bare capacity, else `"Unknown"`. -/
def findMatchingStorageSpec (storageSpec capacity : String) : String :=
  if storageSpec = "" ∨ capacity = "" then "Unknown"
  else
    let storageOptions := strSplitCommaSpace storageSpec
    match storageOptions.find? (fun o => strIncludes o (capacity ++ "GB")) with
    | some o => o
    | none =>
        match storageOptions.find? (fun o => strIncludes o capacity) with
        | some o => o
        | none => "Unknown"

/-- The candidate names pre-fetched by `createSelectedOptionsForWholecell`
(names of Available items, empty names dropped). -/
def wholecellProductNames (items : List RawItem) : List String :=
  ((items.filter (fun i => i.status = "Available")).map
    (fun i => candidateNameOf i.product_variation.product)).filter (· ≠ "")

/-- The `adminProductMap` lookup: among catalog products whose stored name
is *exactly* (case-sensitively) one of the pre-fetched candidate names, the
map keyed by lowercased name keeps the last insertion, so lookup returns
the last such product whose lowercased name matches. -/
def adminProductLookup (admins : List AdminProduct) (names : List String)
    (nameLower : String) : Option AdminProduct :=
  ((admins.filter (fun p => names.contains p.name)).filter
    (fun p => strLower p.name = nameLower)).getLast?

/-- The truthiness test on `adminProduct?.specifications?.storage`. -/
def storageOf (adminProduct : Option AdminProduct) : Option String :=
  match adminProduct with
  | some p =>
      match p.storage with
      | some s => if s = "" then none else some s
      | none => none
  | none => none

/-- Variant descriptor of the Wholecell adapter for one (Available) item:
matched storage-spec token when a capacity and a truthy storage
specification exist, else the synthesized `"{capacity}GB 4GB RAM"`, else
`"Unknown"`. -/
def wholecellVariantOf (admins : List AdminProduct) (names : List String)
    (item : RawItem) : String :=
  let product := item.product_variation.product
  let capacity := product.capacity
  let adminProduct :=
    adminProductLookup admins names (strLower (candidateNameOf product))
  if capacity ≠ "" then
    match storageOf adminProduct with
    | some s => findMatchingStorageSpec s capacity
    | none => capacity ++ "GB 4GB RAM"
  else "Unknown"

/-- `Math.round((Number(total_price_paid) || 0) / 100)` on non-negative
cents. -/
def priceInDollarsOf (cents : Nat) : Nat := (cents + 50) / 100

/-- One loop step of `createSelectedOptionsForWholecell`: items that are
not `Available` are skipped entirely; a new key initializes price and
discount to the rounded dollar price; every processed item increments
stock and appends its unit identifier. -/
def wholecellOptionsStep (admins : List AdminProduct) (names : List String)
    (acc : List (String × SelOpt) × Nat) (item : RawItem) :
    List (String × SelOpt) × Nat :=
  if item.status ≠ "Available" then acc
  else
    let product := item.product_variation.product
    let color := jsOr product.color "Unknown"
    let variant := wholecellVariantOf admins names item
    let key := color ++ "_" ++ variant
    let (m, c) := acc
    let (m, c) :=
      if hasKey m key then (m, c)
      else
        let priceInDollars := priceInDollarsOf item.total_price_paid
        (m ++ [(key, { color := color, variant := variant, stock := 0,
                       price := priceInDollars, discount := priceInDollars,
                       uniqueNumbers := [], oid := c })], c + 1)
    (modifyKey m key (fun o =>
      { o with stock := o.stock + 1,
               uniqueNumbers := o.uniqueNumbers ++ [uniqueNumberOf item] }), c)

/-- `createSelectedOptionsForWholecell(items, adminProductsCollection)`,
threading the fresh-id counter. -/
def createSelectedOptionsForWholecell (items : List RawItem)
    (admins : List AdminProduct) (c : Nat) : List SelOpt × Nat :=
  let names := wholecellProductNames items
  let (m, c') := items.foldl (wholecellOptionsStep admins names) ([], c)
  (m.map (·.2), c')

/-! ## Merge on update (`mergeSelectedOptions`, Wholecell adapter) -/

/-- The option key used by the merge: `` `${color}_${variant}` ``. -/
def optKeyOf (opt : SelOpt) : String := opt.color ++ "_" ++ opt.variant

/-- One step of the second loop of `mergeSelectedOptions`: a key already
present accumulates stock, concatenates unit identifiers, takes the lower
price, and re-pins discount to that price; a new key is copied in. -/
def mergeStep (m : List (String × SelOpt)) (opt : SelOpt) :
    List (String × SelOpt) :=
  let key := optKeyOf opt
  match getKey? m key with
  | some existing =>
      let existing := { existing with
        stock := existing.stock + opt.stock,
        uniqueNumbers := existing.uniqueNumbers ++ opt.uniqueNumbers }
      let existing := { existing with
        price := Nat.min existing.price opt.price }
      let existing := { existing with discount := existing.price }
      setKey m key existing
  | none => setKey m key opt

/-- `mergeSelectedOptions(existingOptions, newOptions)`. -/
def mergeSelectedOptions (existingOptions newOptions : List SelOpt) :
    List SelOpt :=
  let m := existingOptions.foldl (fun acc opt => setKey acc (optKeyOf opt) opt) []
  ((newOptions.foldl mergeStep m).map (·.2))

/-! ## Bulk operations against `tep_vendor_products` -/

/-- A document passed to `insertOne` (its `_id` is assigned by the store
at apply time). -/
structure NewRecordDoc where
  vendorId : Nat
  product : Nat
  condition : Nat
  selectedOptions : List SelOpt
  database : Option String
deriving Repr, DecidableEq

/-- The two filter shapes the source builds. -/
inductive RecFilter where
  | byKey (vendorId product condition : Nat)
  | byId (id : Nat)
deriving Repr, DecidableEq

/-- The two `$set` payload shapes the source builds: a full vendor product
document (`database` is `some` only when that key is in the `$set`), or
just the zeroed `selectedOptions`. -/
inductive RecUpdate where
  | setRecord (vendorId product condition : Nat)
      (selectedOptions : List SelOpt) (database : Option String)
  | setOptions (selectedOptions : List SelOpt)
deriving Repr, DecidableEq

/-- One entry of the `bulkOps` array.  `deleteOne` is part of the store's
bulk interface but is never constructed by this code; it is included so
that "no record is ever deleted" is a statement about the emitted
operations, not an artifact of the model. -/
inductive BulkOp where
  | insertOne (doc : NewRecordDoc)
  | updateOne (filter : RecFilter) (upd : RecUpdate)
  | deleteOne (filter : RecFilter)
deriving Repr, DecidableEq

/-- Filter matching against a persisted record. -/
def matchesFilter (f : RecFilter) (r : VendorRecord) : Bool :=
  match f with
  | .byKey v p c => r.vendorId == v && r.product == p && r.condition == c
  | .byId i => r.oid == i

/-- Apply a `$set` payload to a record (its `_id` is untouched; a
`setRecord` without a `database` key leaves the stored value alone). -/
def applyUpdate (u : RecUpdate) (r : VendorRecord) : VendorRecord :=
  match u with
  | .setRecord v p c opts db =>
      { r with vendorId := v, product := p, condition := c,
               selectedOptions := opts,
               database := match db with | some d => some d | none => r.database }
  | .setOptions opts => { r with selectedOptions := opts }

/-- `updateOne` semantics: the first matching record is updated; with no
`upsert` flag a miss is a no-op. -/
def updateFirst (f : RecFilter) (u : RecUpdate) :
    List VendorRecord → List VendorRecord
  | [] => []
  | r :: rest =>
      if matchesFilter f r then applyUpdate u r :: rest
      else r :: updateFirst f u rest

/-- `deleteOne` semantics (never emitted by this code). -/
def deleteFirst (f : RecFilter) : List VendorRecord → List VendorRecord
  | [] => []
  | r :: rest => if matchesFilter f r then rest else r :: deleteFirst f rest

/-- Apply one bulk operation; the `Nat` is the store's fresh record-id
counter for inserts. -/
def applyOp (st : List VendorRecord × Nat) (op : BulkOp) :
    List VendorRecord × Nat :=
  match op with
  | .insertOne d =>
      (st.1 ++ [{ oid := st.2, vendorId := d.vendorId, product := d.product,
                  condition := d.condition,
                  selectedOptions := d.selectedOptions,
                  database := d.database }], st.2 + 1)
  | .updateOne f u => (updateFirst f u st.1, st.2)
  | .deleteOne f => (deleteFirst f st.1, st.2)

/-- `bulkWrite(bulkOps, { ordered: false })`, modelled as in-order
application (one admissible execution of the unordered batch; no claim
below depends on a reordering). -/
def applyOps (recs : List VendorRecord) (nextId : Nat) (ops : List BulkOp) :
    List VendorRecord × Nat :=
  ops.foldl applyOp (recs, nextId)

/-! ## Generic adapter pipeline (`syncVendor`) -/

/-- The unbound identifier `condition` referenced throughout `syncVendor`:
the module never declares it, so every evaluation throws. -/
def conditionVar : Except String Nat :=
  .error "ReferenceError: condition is not defined"

/-- Mutable state threaded through the generic per-group loop: the catalog
(which `findOrCreateProduct` extends in place), the two fresh-id counters,
the accumulated bulk operations and the two counters of the summary. -/
structure GenState where
  catalog : List AdminProduct
  nextProductId : Nat
  nextOptionId : Nat
  bulkOps : List BulkOp
  newVendorProducts : Nat
  updatedVendorProducts : Nat
deriving Repr, DecidableEq

/-- The body of the generic adapter's per-group `try` block.  The catalog
write of `findOrCreateProduct` happens before any throw and therefore
survives a failing group, as it does at runtime.  Touching the unbound
`condition` makes every stocked group fail here. -/
def syncVendorGroupStep (vendorId : Nat) (persisted : List VendorRecord)
    (st : GenState) (g : ItemGroup) : GenState × Except String Unit :=
  let (product, catalog', nextProductId') :=
    findOrCreateProduct g.product st.catalog st.nextProductId
  let st := { st with catalog := catalog', nextProductId := nextProductId' }
  let (selectedOptions, nextOptionId') :=
    createSelectedOptions g.items st.nextOptionId
  let st := { st with nextOptionId := nextOptionId' }
  if selectedOptions.isEmpty || selectedOptions.all (fun opt => opt.stock == 0)
  then (st, .ok ())
  else
    match conditionVar with
    | .error e => (st, .error e)
    | .ok conditionId =>
        let existing := persisted.find? (fun r =>
          r.vendorId == vendorId && r.product == product.oid &&
          r.condition == conditionId)
        match existing with
        | some _ =>
            ({ st with
               updatedVendorProducts := st.updatedVendorProducts + 1,
               bulkOps := st.bulkOps ++
                 [.updateOne (.byKey vendorId product.oid conditionId)
                   (.setRecord vendorId product.oid conditionId
                     selectedOptions none)] }, .ok ())
        | none =>
            ({ st with
               newVendorProducts := st.newVendorProducts + 1,
               bulkOps := st.bulkOps ++
                 [.insertOne ⟨vendorId, product.oid, conditionId,
                   selectedOptions, none⟩] }, .ok ())

/-- The generic per-group loop: each group's failure is caught (logged
only — nothing in the returned summary records it) and the loop moves on
to the remaining groups. -/
def syncVendorGroupLoop (vendorId : Nat) (persisted : List VendorRecord) :
    List (String × ItemGroup) → GenState → GenState
  | [], st => st
  | (_, g) :: rest, st =>
      let (st', _) := syncVendorGroupStep vendorId persisted st g
      syncVendorGroupLoop vendorId persisted rest st'

/-- The current-combinations rebuild of the mark-out-of-stock phase.  It
runs *outside* any `try` block: it resolves every group's product again and
then evaluates the unbound `condition`, so it fails on the first group. -/
def syncVendorCombinations :
    List (String × ItemGroup) → List AdminProduct → Nat →
    Except String (List (Nat × Nat) × List AdminProduct × Nat)
  | [], catalog, nextId => .ok ([], catalog, nextId)
  | (_, g) :: rest, catalog, nextId =>
      let (product, catalog', nextId') :=
        findOrCreateProduct g.product catalog nextId
      match conditionVar with
      | .error e => .error e
      | .ok conditionId =>
          match syncVendorCombinations rest catalog' nextId' with
          | .error e => .error e
          | .ok (combos, catalog'', nextId'') =>
              .ok ((product.oid, conditionId) :: combos, catalog'', nextId'')

/-- `{ ...opt, stock: 0, uniqueNumbers: [] }` of the zero-out map. -/
def zeroOutOption (opt : SelOpt) : SelOpt :=
  { opt with stock := 0, uniqueNumbers := [] }

/-- The zero-out update pushed for one stale record. -/
def zeroOutOpFor (r : VendorRecord) : BulkOp :=
  .updateOne (.byId r.oid) (.setOptions (r.selectedOptions.map zeroOutOption))

/-- The returned summary of `syncVendor`. -/
structure GenericSummary where
  vendorId : Nat
  totalFetched : Nat
  groupsProcessed : Nat
  newVendorProducts : Nat
  updatedVendorProducts : Nat
  markedAsOutOfStock : Nat
  totalOperations : Nat
deriving Repr, DecidableEq

/-- `syncVendor(vendorApi, db)`.  The vendor fetch is passed in as an
`Except` (a fetch failure propagates unchanged); the returned operations
are the batch handed to `bulkWrite`, which runs only when the function
reaches its end without throwing. -/
def syncVendor (vendorId : Nat) (catalog : List AdminProduct)
    (persisted : List VendorRecord)
    (fetchResult : Except String (List RawItem))
    (nextProductId nextOptionId : Nat) :
    Except String (GenericSummary × List BulkOp) :=
  match fetchResult with
  | .error e => .error e
  | .ok vendorItems =>
    let groupedItems := groupItemsByProductAndCondition vendorItems
    let st0 : GenState :=
      { catalog := catalog, nextProductId := nextProductId,
        nextOptionId := nextOptionId, bulkOps := [],
        newVendorProducts := 0, updatedVendorProducts := 0 }
    let st := syncVendorGroupLoop vendorId persisted groupedItems st0
    let existingVendorProducts :=
      persisted.filter (fun r => r.vendorId == vendorId)
    match syncVendorCombinations groupedItems st.catalog st.nextProductId with
    | .error e => .error e
    | .ok (currentCombinations, _, _) =>
      let (finalOps, marked) := existingVendorProducts.foldl
        (fun (acc : List BulkOp × Nat) r =>
          if currentCombinations.contains (r.product, r.condition) then acc
          else (acc.1 ++ [zeroOutOpFor r], acc.2 + 1))
        (st.bulkOps, 0)
      .ok ({ vendorId := vendorId, totalFetched := vendorItems.length,
             groupsProcessed := groupedItems.length,
             newVendorProducts := st.newVendorProducts,
             updatedVendorProducts := st.updatedVendorProducts,
             markedAsOutOfStock := marked,
             totalOperations := finalOps.length }, finalOps)

/-! ## Wholecell adapter pipeline (`syncWholecellVendor`) -/

/-- The fixed per-vendor condition reference
`new ObjectId("682f3e63402c8b0c279cba1e")`, modelled as a dedicated id. -/
def fixedConditionId : Nat := 682

/-- A group that survived the STEP 1 validation, together with the matched
catalog product. -/
structure ValidGroup where
  key : String
  group : ItemGroup
  existingProduct : AdminProduct
deriving Repr, DecidableEq

/-- STEP 1 of `syncWholecellVendor`: keep only groups whose product
resolves against the existing catalog; count the rest as skipped. -/
def wholecellValidation (admins : List AdminProduct) :
    List (String × ItemGroup) → List ValidGroup × Nat
  | [] => ([], 0)
  | (k, g) :: rest =>
      let (valid, skipped) := wholecellValidation admins rest
      match findExistingProduct g.product admins with
      | some p => (⟨k, g, p⟩ :: valid, skipped)
      | none => (valid, skipped + 1)

/-- Mutable state of the Wholecell STEP 2 loop. -/
structure WcState where
  bulkOps : List BulkOp
  newVendorProducts : Nat
  updatedVendorProducts : Nat
  totalStockProcessed : Nat
  nextOptionId : Nat
deriving Repr, DecidableEq

/-- The body of one Wholecell STEP 2 iteration (the source wraps it in a
`try` whose body, as modelled here, is total): aggregate the group's
options, skip stockless groups, then either merge into the existing record
(update) or insert a new one, and accumulate the processed stock. -/
def wholecellGroupStep (vendorId : Nat) (admins : List AdminProduct)
    (persisted : List VendorRecord) (st : WcState) (vg : ValidGroup) :
    WcState :=
  let (selectedOptions, c') :=
    createSelectedOptionsForWholecell vg.group.items admins st.nextOptionId
  let st := { st with nextOptionId := c' }
  if selectedOptions.isEmpty || selectedOptions.all (fun opt => opt.stock == 0)
  then st
  else
    let existing := persisted.find? (fun r =>
      r.vendorId == vendorId && r.product == vg.existingProduct.oid &&
      r.condition == fixedConditionId)
    let newStock := (selectedOptions.map (·.stock)).sum
    match existing with
    | some ex =>
        let mergedOptions := mergeSelectedOptions ex.selectedOptions selectedOptions
        { st with
          updatedVendorProducts := st.updatedVendorProducts + 1,
          bulkOps := st.bulkOps ++
            [.updateOne (.byKey vendorId vg.existingProduct.oid fixedConditionId)
              (.setRecord vendorId vg.existingProduct.oid fixedConditionId
                mergedOptions (some "wholecell"))],
          totalStockProcessed := st.totalStockProcessed + newStock }
    | none =>
        { st with
          newVendorProducts := st.newVendorProducts + 1,
          bulkOps := st.bulkOps ++
            [.insertOne ⟨vendorId, vg.existingProduct.oid, fixedConditionId,
              selectedOptions, some "wholecell"⟩],
          totalStockProcessed := st.totalStockProcessed + newStock }

/-- The returned summary of `syncWholecellVendor`. -/
structure WholecellSummary where
  vendorId : Nat
  totalFetched : Nat
  validProducts : Nat
  skippedProducts : Nat
  newVendorProducts : Nat
  updatedVendorProducts : Nat
  totalStockProcessed : Nat
  totalOperations : Nat
deriving Repr, DecidableEq

/-- The pipeline of `syncWholecellVendor` after a successful fetch; it is
total (nothing in it can throw in the pure model — the catalog is only
read, never written). -/
def syncWholecellCore (vendorId : Nat) (admins : List AdminProduct)
    (persisted : List VendorRecord) (vendorItems : List RawItem)
    (nextOptionId : Nat) : WholecellSummary × List BulkOp :=
  let groupedItems := groupItemsByProductAndCondition vendorItems
  let (validGroups, skippedProducts) := wholecellValidation admins groupedItems
  let st := validGroups.foldl (wholecellGroupStep vendorId admins persisted)
    ⟨[], 0, 0, 0, nextOptionId⟩
  ({ vendorId := vendorId, totalFetched := vendorItems.length,
     validProducts := validGroups.length,
     skippedProducts := skippedProducts,
     newVendorProducts := st.newVendorProducts,
     updatedVendorProducts := st.updatedVendorProducts,
     totalStockProcessed := st.totalStockProcessed,
     totalOperations := st.bulkOps.length }, st.bulkOps)

/-- `syncWholecellVendor(vendorApi, db)`: a fetch failure propagates; the
returned operations are the batch handed to `bulkWrite`. -/
def syncWholecellVendor (vendorId : Nat) (admins : List AdminProduct)
    (persisted : List VendorRecord)
    (fetchResult : Except String (List RawItem)) (nextOptionId : Nat) :
    Except String (WholecellSummary × List BulkOp) :=
  match fetchResult with
  | .error e => .error e
  | .ok vendorItems =>
      .ok (syncWholecellCore vendorId admins persisted vendorItems
        nextOptionId)

/-! ## Orchestrator (the `router.get` handlers) -/

/-- One `tep_admin_wholesale_apis` document (credentials elided — the
embedding takes each vendor's fetch outcome as a parameter). -/
structure VendorApi where
  vendorId : Nat
deriving Repr, DecidableEq

/-- One slot of the returned summary: either the vendor's success summary,
or `{ vendorId, error }` built from the rejected promise. -/
inductive SummaryEntry (α : Type) where
  | success (s : α)
  | failure (vendorId : Nat) (error : String)
deriving Repr, DecidableEq

/-- `Promise.allSettled(vendorApis.map(api => sync...(api, db)))` followed
by the per-index summary mapping: each vendor's pipeline outcome is
collected independently into that vendor's slot. -/
def runAllVendors {α : Type} (vendors : List VendorApi)
    (runOne : VendorApi → Except String α) : List (SummaryEntry α) :=
  vendors.map (fun api =>
    match runOne api with
    | .ok s => .success s
    | .error e => .failure api.vendorId e)

/-! ## Concrete fixtures used by witnesses and counterexamples -/

/-- An Available Acme X1 feed item: black, 128 GB, 10000 cents paid. -/
def acmeItem (n : Nat) (esn : String) : RawItem :=
  { id := n, status := "Available", esn := esn, hex_id := "",
    total_price_paid := 10000,
    product_variation :=
      { grade := "A", sku := "",
        product := { manufacturer := "Acme", model := "X1", color := "Black",
                     capacity := "128", variant := "" } } }

/-- The catalog entry `"Acme X1"` without a storage specification. -/
def acmeAdmin : AdminProduct :=
  { oid := 5, name := "Acme X1", manufacturer := "Acme", model := "X1",
    category := "Acme", imagesByColor := [], storage := none }

/-- The same catalog entry carrying a structured storage specification. -/
def acmeAdminSpec : AdminProduct :=
  { acmeAdmin with storage := some "64GB 4GB RAM, 128GB 6GB RAM" }

/-- A persisted vendor product record with a single option at stock 3. -/
def staleRecord : VendorRecord :=
  { oid := 9, vendorId := 1, product := 5, condition := fixedConditionId,
    selectedOptions := [⟨"Black", "X", 3, 10, 0, ["a", "b", "c"], 0⟩],
    database := none }

/-- A catalog entry whose name strictly contains the candidate "Acme X1". -/
def acmeX1Pro : AdminProduct :=
  { acmeAdmin with oid := 6, name := "Acme X1 Pro" }

/-- An Available item with no capacity but a vendor-reported variant
label. -/
def fooItem : RawItem :=
  { id := 7, status := "Available", esn := "F1", hex_id := "",
    total_price_paid := 2000,
    product_variation :=
      { grade := "B", sku := "",
        product := { manufacturer := "Acme", model := "X1", color := "Red",
                     capacity := "", variant := "FooEdition" } } }

/-- An Available item for a manufacturer/model absent from the catalog. -/
def unknownItem : RawItem :=
  { id := 8, status := "Available", esn := "U1", hex_id := "",
    total_price_paid := 3000,
    product_variation :=
      { grade := "A", sku := "",
        product := { manufacturer := "Nova", model := "Z9", color := "Blue",
                     capacity := "64", variant := "" } } }

/-! ## Derived definitions used by the statements below -/

/-- The keys of an association map. -/
def keys (m : List (String × α)) : List String := m.map (·.1)

/-- An option with its freshly generated identity erased: two aggregation
passes over the same feed agree up to this normalization. -/
def stripOpt (o : SelOpt) : SelOpt := { o with oid := 0 }

/-- An association-map entry with its value's identity erased. -/
def stripEntry (p : String × SelOpt) : String × SelOpt :=
  (p.1, stripOpt p.2)

/-- What the additive merge does to an option merged with a copy of
itself: stock doubles, the unit-identifier list is self-concatenated, and
discount is re-pinned to the (unchanged) price. -/
def doubleOpt (o : SelOpt) : SelOpt :=
  { o with stock := o.stock + o.stock,
           uniqueNumbers := o.uniqueNumbers ++ o.uniqueNumbers,
           discount := o.price }

/-- A valid group that contributes at least one stocked option (the
Wholecell aggregation gives every option stock ≥ 1, so this is exactly
non-emptiness of the aggregated option list; the counter argument is
irrelevant up to `stripOpt`). -/
def isStocked (admins : List AdminProduct) (vg : ValidGroup) : Bool :=
  !(createSelectedOptionsForWholecell vg.group.items admins 0).1.isEmpty

/-- The product reference carried by an operation's payload, when any. -/
def opProductRef (op : BulkOp) : Option Nat :=
  match op with
  | .insertOne d => some d.product
  | .updateOne _ (.setRecord _ p _ _ _) => some p
  | .updateOne _ (.setOptions _) => none
  | .deleteOne _ => none

/-- Operations of the shape the Wholecell pipeline emits: an insert of a
fresh record or a full-record `$set`; in particular never a delete and
never an options-only zero-out. -/
def isCreateOrMergeOp (op : BulkOp) : Bool :=
  match op with
  | .insertOne _ => true
  | .updateOne _ (.setRecord _ _ _ _ _) => true
  | .updateOne _ (.setOptions _) => false
  | .deleteOne _ => false

/-- `op` is a delete. -/
def isDeleteOp (op : BulkOp) : Bool :=
  match op with
  | .deleteOne _ => true
  | _ => false

/-- The records produced by inserting a list of documents in order,
assigning fresh ids from `n`. -/
def mkRecs : List NewRecordDoc → Nat → List VendorRecord
  | [], _ => []
  | d :: ds, n =>
      { oid := n, vendorId := d.vendorId, product := d.product,
        condition := d.condition, selectedOptions := d.selectedOptions,
        database := d.database } :: mkRecs ds (n + 1)

/-- The persisted record a run-1 insert leaves for a valid group: same
vendor, the group's matched product, the fixed condition, and option list
equal to some aggregation pass over the group's items. -/
def RecMatches (v : Nat) (admins : List AdminProduct) (vg : ValidGroup)
    (rec : VendorRecord) : Prop :=
  rec.vendorId = v ∧ rec.product = vg.existingProduct.oid ∧
  rec.condition = fixedConditionId ∧
  ∃ c, rec.selectedOptions =
    (createSelectedOptionsForWholecell vg.group.items admins c).1

/-- The generic pipeline as the orchestrator observes it: the summary on
success, the thrown error otherwise (the route never reads the operation
list). -/
def runGenericVendor (vendorId : Nat) (catalog : List AdminProduct)
    (persisted : List VendorRecord)
    (fetchResult : Except String (List RawItem))
    (nextProductId nextOptionId : Nat) : Except String GenericSummary :=
  (syncVendor vendorId catalog persisted fetchResult nextProductId
    nextOptionId).map (·.1)

/-- The initial state of the generic per-group loop. -/
def genInit (catalog : List AdminProduct) (nextProductId nextOptionId : Nat) :
    GenState :=
  { catalog := catalog, nextProductId := nextProductId,
    nextOptionId := nextOptionId, bulkOps := [],
    newVendorProducts := 0, updatedVendorProducts := 0 }

/-! ## General helper lemmas -/

theorem foldl_invariant {σ α : Type} (P : σ → Prop) (step : σ → α → σ)
    (l : List α) (s : σ) (hstep : ∀ s a, P s → P (step s a)) (hs : P s) :
    P (l.foldl step s) := by
  induction l generalizing s with
  | nil => exact hs
  | cons a rest ih => exact ih _ (hstep s a hs)

theorem foldl_rel {σ τ α : Type} (R : σ → τ → Prop) (f : σ → α → σ)
    (g : τ → α → τ) (hstep : ∀ s t a, R s t → R (f s a) (g t a)) :
    ∀ (l : List α) (s : σ) (t : τ), R s t → R (l.foldl f s) (l.foldl g t) := by
  intro l
  induction l with
  | nil => intro s t h; exact h
  | cons a rest ih => intro s t h; exact ih _ _ (hstep s t a h)

theorem foldl_invariant_mem {σ α : Type} (P : σ → Prop) (step : σ → α → σ) :
    ∀ (l : List α) (s : σ), (∀ s a, a ∈ l → P s → P (step s a)) → P s →
      P (l.foldl step s)
  | [], _, _, hs => hs
  | a :: rest, s, hstep, hs =>
      foldl_invariant_mem P step rest (step s a)
        (fun s' b hb => hstep s' b (List.mem_cons_of_mem a hb))
        (hstep s a (List.mem_cons_self a rest) hs)

/-- A string with a non-empty suffix appended is non-empty. -/
theorem str_append_ne_empty (s t : String) (ht : t.data ≠ []) :
    s ++ t ≠ "" := by
  intro h
  have h2 := congrArg String.data h
  simp [String.data_append] at h2
  exact ht h2.2

/-! ## C4 -/

/-- C4: a feed of exactly two Available items (manufacturer "Acme", model
"X1", color "Black", capacity "128", 10000 cents paid) aggregates, under
the restricted adapter, to a single SelectedOption with color "Black",
variant "128GB 4GB RAM" when the matched product has no storage
specification — or the matching storage-specification token when one
exists — stock 2, price 100, discount 100, and two unit identifiers. -/
theorem c4_two_item_acme_aggregation :
    (createSelectedOptionsForWholecell [acmeItem 1 "E1", acmeItem 2 "E2"]
        [acmeAdmin] 0).1 =
      [⟨"Black", "128GB 4GB RAM", 2, 100, 100, ["E1", "E2"], 0⟩] ∧
    (createSelectedOptionsForWholecell [acmeItem 1 "E1", acmeItem 2 "E2"]
        [acmeAdminSpec] 0).1 =
      [⟨"Black", "128GB 6GB RAM", 2, 100, 100, ["E1", "E2"], 0⟩] :=
  ⟨by decide, by decide⟩

/-! ## C9 -/

/-- C9: the orchestrator maps every configured vendor to exactly one
summary slot; a slot depends only on that vendor's own pipeline outcome;
and in the concrete scenario where vendor 1's fetch throws while vendor
2's pipeline succeeds, the summary has an error entry for vendor 1 and a
full success summary for vendor 2. -/
theorem c9_orchestrator_isolates_vendor_failures :
    (∀ (α : Type) (vendors : List VendorApi)
        (runOne : VendorApi → Except String α),
        (runAllVendors vendors runOne).length = vendors.length) ∧
    (∀ (α : Type) (vendors : List VendorApi)
        (runOne runOne' : VendorApi → Except String α) (i : Nat)
        (api : VendorApi), vendors[i]? = some api →
        runOne api = runOne' api →
        (runAllVendors vendors runOne)[i]? =
          (runAllVendors vendors runOne')[i]?) ∧
    runAllVendors [⟨1⟩, ⟨2⟩]
        (fun api =>
          if api.vendorId = 1 then
            runGenericVendor 1 [] [] (.error "network timeout") 0 0
          else runGenericVendor 2 [] [] (.ok []) 0 0) =
      [.failure 1 "network timeout",
       .success { vendorId := 2, totalFetched := 0, groupsProcessed := 0,
                  newVendorProducts := 0, updatedVendorProducts := 0,
                  markedAsOutOfStock := 0, totalOperations := 0 }] := by
  refine ⟨?_, ?_, ?_⟩
  · intro α vendors runOne
    simp [runAllVendors]
  · intro α vendors runOne runOne' i api hi heq
    simp only [runAllVendors, List.getElem?_map, hi, Option.map_some']
    rw [heq]
  · rfl

/-- Witness for C9: the non-interference part applied at a concrete
vendor list and a pair of pipelines that agree on that vendor. -/
theorem c9_witness :
    (runAllVendors [(⟨3⟩ : VendorApi)]
        (fun api =>
          if api.vendorId = 3 then runGenericVendor 3 [] [] (.ok []) 0 0
          else runGenericVendor 3 [] [] (.error "down") 0 0))[0]? =
    (runAllVendors [(⟨3⟩ : VendorApi)]
        (fun _ => runGenericVendor 3 [] [] (.ok []) 0 0))[0]? :=
  c9_orchestrator_isolates_vendor_failures.2.1 GenericSummary [⟨3⟩]
    (fun api =>
      if api.vendorId = 3 then runGenericVendor 3 [] [] (.ok []) 0 0
      else runGenericVendor 3 [] [] (.error "down") 0 0)
    (fun _ => runGenericVendor 3 [] [] (.ok []) 0 0)
    0 ⟨3⟩ rfl rfl

/-! ## C1 counterexample -/

/-- C1 counterexample: a restricted-adapter pass whose feed is empty while
a record with stock 3 is persisted emits no operation at all — in
particular the persisted record, although absent from the freshly computed
(empty) set, receives no zero-out: applying the pass's batch leaves it
with stock 3 and its unit identifiers intact, contradicting the claim that
every absent persisted record receives a zero-out in every pass of either
adapter. -/
theorem c1_counterexample_wholecell_never_zeroes :
    syncWholecellVendor 1 [acmeAdmin] [staleRecord] (.ok []) 0 =
      .ok ({ vendorId := 1, totalFetched := 0, validProducts := 0,
             skippedProducts := 0, newVendorProducts := 0,
             updatedVendorProducts := 0, totalStockProcessed := 0,
             totalOperations := 0 }, []) ∧
    (applyOps [staleRecord] 100
        (syncWholecellCore 1 [acmeAdmin] [staleRecord] [] 0).2).1 =
      [staleRecord] ∧
    staleRecord.selectedOptions.all (fun o => o.stock = 3) = true :=
  ⟨by rfl, by rfl, by decide⟩

/-! ## C5 counterexample -/

/-- C5 counterexample: with the catalog `["Acme X1 Pro"]` and input
manufacturer "Acme", model "X1", no case-insensitive exact match exists,
yet the creating resolver `findOrCreateProduct` does not create anything:
it returns the existing "Acme X1 Pro" record via its substring match and
leaves the catalog unchanged — contradicting the claim that resolution
first attempts an exact match and, with `allowCreate` true and nothing
matching, creates and returns a new product. -/
theorem c5_counterexample_no_exact_first_step :
    ([acmeX1Pro].all
      (fun p => !(strEqCI p.name
        (candidateNameOf ⟨"Acme", "X1", "", "", ""⟩)))) = true ∧
    findOrCreateProduct ⟨"Acme", "X1", "", "", ""⟩ [acmeX1Pro] 100 =
      (acmeX1Pro, [acmeX1Pro], 100) :=
  ⟨by decide, by decide⟩

/-! ## C6 counterexample -/

/-- C6 counterexample: with one Available feed item, the failure thrown
inside the per-group try block (the `ReferenceError` on the unbound
`condition`) is caught there — the loop finishes, records nothing and
emits no operation — but the very same failure recurs in the
current-combinations phase outside any try block and aborts the whole
vendor pipeline, contradicting the claim that a group-boundary failure is
recorded and never aborts a later stage of the vendor's run. -/
theorem c6_counterexample_group_error_aborts_vendor :
    (syncVendorGroupStep 1 []
        (genInit [] 0 0)
        { product := (acmeItem 1 "E1").product_variation.product,
          variation := (acmeItem 1 "E1").product_variation,
          condition := "A", items := [acmeItem 1 "E1"] }).2 =
      .error "ReferenceError: condition is not defined" ∧
    (syncVendorGroupLoop 1 []
        (groupItemsByProductAndCondition [acmeItem 1 "E1"])
        (genInit [] 0 0)).bulkOps = [] ∧
    syncVendor 1 [] [] (.ok [acmeItem 1 "E1"]) 0 0 =
      .error "ReferenceError: condition is not defined" :=
  ⟨by rfl, by rfl, by rfl⟩

/-! ## C7 counterexample -/

/-- C7 counterexample: an Available item with no capacity and vendor
variant label "FooEdition" aggregates, in the restricted adapter, to an
option whose variant descriptor is "Unknown" — not the vendor-reported
label and not "Standard" — contradicting the claimed fallback order. -/
theorem c7_counterexample_no_vendor_label_fallback :
    ((createSelectedOptionsForWholecell [fooItem] [] 0).1.map (·.variant)) =
      ["Unknown"] ∧
    fooItem.product_variation.product.variant = "FooEdition" ∧
    ("Unknown" : String) ≠ "FooEdition" :=
  ⟨by decide, by rfl, by decide⟩

/-! ## C5 amended -/

/-- C5 (amended): resolution builds the candidate name
"{manufacturer} {model}" trimmed.  The non-creating resolver
(`findExistingProduct`, `allowCreate` false) first attempts a
case-insensitive exact match, returning the first one; with no exact match
it attempts a case-insensitive substring match only when the candidate
exceeds 3 characters, returning the first match or nothing; it only ever
returns catalog members.  The creating resolver (`findOrCreateProduct`,
`allowCreate` true) performs a single case-insensitive substring match
with no exact-first step and no length guard; when it matches it returns
the first match and creates nothing, and only when nothing
substring-matches does it create — and return — a new product whose name
is the candidate, whose category defaults to the manufacturer, and whose
imagesByColor is empty. -/
theorem c5_amended_resolver_characterization :
    (∀ pd admins p, findExistingProduct pd admins = some p → p ∈ admins) ∧
    (∀ pd admins p,
        admins.find? (fun q => strEqCI q.name (candidateNameOf pd)) = some p →
        findExistingProduct pd admins = some p) ∧
    (∀ pd admins,
        admins.find? (fun q => strEqCI q.name (candidateNameOf pd)) = none →
        strLength (candidateNameOf pd) ≤ 3 →
        findExistingProduct pd admins = none) ∧
    (∀ pd admins,
        admins.find? (fun q => strEqCI q.name (candidateNameOf pd)) = none →
        3 < strLength (candidateNameOf pd) →
        findExistingProduct pd admins =
          admins.find? (fun q => strIncludesCI q.name (candidateNameOf pd))) ∧
    (∀ pd admins n p,
        admins.find? (fun q => strIncludesCI q.name (candidateNameOf pd)) =
          some p →
        findOrCreateProduct pd admins n = (p, admins, n)) ∧
    (∀ pd admins n,
        admins.find? (fun q => strIncludesCI q.name (candidateNameOf pd)) =
          none →
        (findOrCreateProduct pd admins n).1 =
          { oid := n, name := candidateNameOf pd,
            manufacturer := jsOr pd.manufacturer "Unknown",
            model := pd.model, category := jsOr pd.manufacturer "Unknown",
            imagesByColor := [], storage := none } ∧
        (findOrCreateProduct pd admins n).2.1 =
          admins ++ [(findOrCreateProduct pd admins n).1]) := by
  refine ⟨?_, ?_, ?_, ?_, ?_, ?_⟩
  · intro pd admins p h
    simp only [findExistingProduct] at h
    cases hx : admins.find? (fun q => strEqCI q.name (candidateNameOf pd)) with
    | some q =>
        rw [hx] at h
        cases h
        exact List.mem_of_find?_eq_some hx
    | none =>
        rw [hx] at h
        by_cases hl : strLength (candidateNameOf pd) > 3
        · rw [if_pos hl] at h
          exact List.mem_of_find?_eq_some h
        · rw [if_neg hl] at h
          cases h
  · intro pd admins p h
    simp only [findExistingProduct]
    rw [h]
  · intro pd admins hx hl
    simp only [findExistingProduct]
    rw [hx, if_neg (by omega : ¬ strLength (candidateNameOf pd) > 3)]
  · intro pd admins hx hl
    simp only [findExistingProduct]
    rw [hx, if_pos (by omega : strLength (candidateNameOf pd) > 3)]
  · intro pd admins n p h
    simp only [findOrCreateProduct]
    rw [h]
  · intro pd admins n h
    simp only [findOrCreateProduct]
    rw [h]
    exact ⟨rfl, rfl⟩

/-- Witness for C5: the amended characterization applied at concrete
inputs — an exact match wins for the non-creating resolver, and the
creating resolver creates with category "Acme" and no images when nothing
substring-matches. -/
theorem c5_amended_witness :
    findExistingProduct ⟨"Acme", "X1", "", "", ""⟩ [acmeX1Pro, acmeAdmin] =
      some acmeAdmin ∧
    (findOrCreateProduct ⟨"Nova", "Z9", "", "", ""⟩ [acmeAdmin] 50).1 =
      { oid := 50, name := "Nova Z9", manufacturer := "Nova",
        model := "Z9", category := "Nova", imagesByColor := [],
        storage := none } :=
  ⟨c5_amended_resolver_characterization.2.1 ⟨"Acme", "X1", "", "", ""⟩
      [acmeX1Pro, acmeAdmin] acmeAdmin (by decide),
   ((c5_amended_resolver_characterization.2.2.2.2.2 ⟨"Nova", "Z9", "", "", ""⟩
      [acmeAdmin] 50 (by decide)).1).trans (by decide)⟩

/-! ## C7 amended -/

/-- C7 (amended): the variant descriptor priorities actually implemented.
Restricted adapter: with a capacity and a truthy storage specification on
the matched product, the descriptor is the first specification token
containing "{capacity}GB", else the first containing the bare capacity,
else "Unknown" (not a synthesized fallback); with a capacity and no
storage specification it is the synthesized "{capacity}GB 4GB RAM"; with
no capacity it is "Unknown" — the vendor-reported variant label and
"Standard" are never consulted.  Generic adapter: the vendor-reported
variant label first, else "{capacity}GB" when a capacity exists, else
"Standard". -/
theorem c7_amended_variant_priority :
    (∀ cap, findMatchingStorageSpec "" cap = "Unknown") ∧
    (∀ s, findMatchingStorageSpec s "" = "Unknown") ∧
    (∀ s cap o, s ≠ "" → cap ≠ "" →
        (strSplitCommaSpace s).find?
          (fun t => strIncludes t (cap ++ "GB")) = some o →
        findMatchingStorageSpec s cap = o) ∧
    (∀ s cap o, s ≠ "" → cap ≠ "" →
        (strSplitCommaSpace s).find?
          (fun t => strIncludes t (cap ++ "GB")) = none →
        (strSplitCommaSpace s).find? (fun t => strIncludes t cap) = some o →
        findMatchingStorageSpec s cap = o) ∧
    (∀ s cap, s ≠ "" → cap ≠ "" →
        (strSplitCommaSpace s).find?
          (fun t => strIncludes t (cap ++ "GB")) = none →
        (strSplitCommaSpace s).find? (fun t => strIncludes t cap) = none →
        findMatchingStorageSpec s cap = "Unknown") ∧
    (∀ admins names item s,
        item.product_variation.product.capacity ≠ "" →
        storageOf (adminProductLookup admins names
          (strLower (candidateNameOf item.product_variation.product))) =
            some s →
        wholecellVariantOf admins names item =
          findMatchingStorageSpec s item.product_variation.product.capacity) ∧
    (∀ admins names item,
        item.product_variation.product.capacity ≠ "" →
        storageOf (adminProductLookup admins names
          (strLower (candidateNameOf item.product_variation.product))) =
            none →
        wholecellVariantOf admins names item =
          item.product_variation.product.capacity ++ "GB 4GB RAM") ∧
    (∀ admins names item,
        item.product_variation.product.capacity = "" →
        wholecellVariantOf admins names item = "Unknown") ∧
    (∀ product : RawProduct, product.variant ≠ "" →
        genericVariantOf product = product.variant) ∧
    (∀ product : RawProduct, product.variant = "" → product.capacity ≠ "" →
        genericVariantOf product = product.capacity ++ "GB") ∧
    (∀ product : RawProduct, product.variant = "" → product.capacity = "" →
        genericVariantOf product = "Standard") := by
  refine ⟨?_, ?_, ?_, ?_, ?_, ?_, ?_, ?_, ?_, ?_, ?_⟩
  · intro cap; simp [findMatchingStorageSpec]
  · intro s; simp [findMatchingStorageSpec]
  · intro s cap o hs hc h
    simp only [findMatchingStorageSpec]
    rw [if_neg (by simp [hs, hc]), h]
  · intro s cap o hs hc h1 h2
    simp only [findMatchingStorageSpec]
    rw [if_neg (by simp [hs, hc]), h1, h2]
  · intro s cap hs hc h1 h2
    simp only [findMatchingStorageSpec]
    rw [if_neg (by simp [hs, hc]), h1, h2]
  · intro admins names item s hc hst
    simp only [wholecellVariantOf]
    rw [if_pos hc, hst]
  · intro admins names item hc hst
    simp only [wholecellVariantOf]
    rw [if_pos hc, hst]
  · intro admins names item hc
    simp only [wholecellVariantOf]
    rw [if_neg (by simp [hc])]
  · intro product hv
    simp only [genericVariantOf, jsOr]
    rw [if_neg hv]
  · intro product hv hc
    simp only [genericVariantOf, jsOr, hv, if_neg hc, if_true,
      eq_self_iff_true]
    rw [if_neg (str_append_ne_empty product.capacity "GB" (by decide))]
  · intro product hv hc
    simp [genericVariantOf, jsOr, hv, hc]

/-- Witness for C7: the amended priorities applied at concrete inputs —
the matching token wins over synthesis, the no-capacity case yields
"Unknown", and the generic adapter prefers the vendor label. -/
theorem c7_amended_witness :
    findMatchingStorageSpec "64GB 4GB RAM, 128GB 6GB RAM" "128" =
      "128GB 6GB RAM" ∧
    wholecellVariantOf [] [] fooItem = "Unknown" ∧
    genericVariantOf ⟨"Acme", "X1", "Red", "64", "FooEdition"⟩ =
      "FooEdition" :=
  ⟨c7_amended_variant_priority.2.2.1 "64GB 4GB RAM, 128GB 6GB RAM" "128"
      "128GB 6GB RAM" (by decide) (by decide) (by decide),
   c7_amended_variant_priority.2.2.2.2.2.2.2.1 [] [] fooItem (by decide),
   c7_amended_variant_priority.2.2.2.2.2.2.2.2.1
      ⟨"Acme", "X1", "Red", "64", "FooEdition"⟩ (by decide)⟩

/-! ## Association-map membership lemmas -/

theorem modifyKey_forall {α : Type} (P : α → Prop) (m : List (String × α))
    (k : String) (f : α → α) (hm : ∀ p ∈ m, P p.2)
    (hf : ∀ o, P o → P (f o)) : ∀ p ∈ modifyKey m k f, P p.2 := by
  intro p hp
  simp only [modifyKey, List.mem_map] at hp
  obtain ⟨q, hq, he⟩ := hp
  subst he
  by_cases h : q.1 = k
  · simp only [if_pos h]
    exact hf _ (hm q hq)
  · simp only [if_neg h]
    exact hm q hq

theorem setKey_forall {α : Type} (P : α → Prop) (m : List (String × α))
    (k : String) (v : α) (hm : ∀ p ∈ m, P p.2) (hv : P v) :
    ∀ p ∈ setKey m k v, P p.2 := by
  intro p hp
  simp only [setKey] at hp
  by_cases h : hasKey m k
  · rw [if_pos h] at hp
    simp only [List.mem_map] at hp
    obtain ⟨q, hq, he⟩ := hp
    subst he
    by_cases hqk : q.1 = k
    · simp only [if_pos hqk]; exact hv
    · simp only [if_neg hqk]; exact hm q hq
  · rw [if_neg h] at hp
    rcases List.mem_append.mp hp with hin | hin
    · exact hm p hin
    · rcases List.mem_singleton.mp hin with rfl
      exact hv

theorem getKey?_mem {α : Type} {m : List (String × α)} {k : String} {v : α}
    (h : getKey? m k = some v) : ∃ p ∈ m, p.2 = v := by
  simp only [getKey?] at h
  cases hf : m.find? (fun p => p.1 = k) with
  | none => rw [hf] at h; cases h
  | some q =>
      rw [hf] at h
      cases h
      exact ⟨q, List.mem_of_find?_eq_some hf, rfl⟩

/-! ## Aggregation invariants -/

/-- Every option the generic aggregation step keeps in its map pairs each
stock unit with exactly one unit identifier. -/
theorem createSelectedOptionsStep_inv
    (acc : List (String × SelOpt) × Nat) (item : RawItem)
    (h : ∀ p ∈ acc.1, p.2.stock = p.2.uniqueNumbers.length) :
    ∀ p ∈ (createSelectedOptionsStep acc item).1,
      p.2.stock = p.2.uniqueNumbers.length := by
  obtain ⟨m, c⟩ := acc
  simp only [createSelectedOptionsStep]
  set key := (jsOr item.product_variation.product.color "Unknown") ++ "_" ++
    genericVariantOf item.product_variation.product with hkey
  have hmid : ∀ p ∈ (if hasKey m key then (m, c) else
      (m ++ [(key, { color := jsOr item.product_variation.product.color "Unknown",
                     variant := genericVariantOf item.product_variation.product,
                     stock := 0, price := item.total_price_paid, discount := 0,
                     uniqueNumbers := [], oid := c })], c + 1)).1,
      p.2.stock = p.2.uniqueNumbers.length := by
    by_cases hk : hasKey m key
    · rw [if_pos hk]; exact h
    · rw [if_neg hk]
      intro p hp
      rcases List.mem_append.mp hp with hin | hin
      · exact h p hin
      · rcases List.mem_singleton.mp hin with rfl
        rfl
  by_cases hs : item.status ≠ "Sold"
  · simp only [if_pos hs]
    refine modifyKey_forall
      (fun o : SelOpt => o.stock = o.uniqueNumbers.length) _ _ _ ?_ ?_
    · exact hmid
    · intro o ho
      simp only [List.length_append, List.length_singleton]
      omega
  · simp only [if_neg hs]
    exact hmid

/-- Same invariant for the Wholecell aggregation step. -/
theorem wholecellOptionsStep_inv (admins : List AdminProduct)
    (names : List String) (acc : List (String × SelOpt) × Nat)
    (item : RawItem)
    (h : ∀ p ∈ acc.1, p.2.stock = p.2.uniqueNumbers.length) :
    ∀ p ∈ (wholecellOptionsStep admins names acc item).1,
      p.2.stock = p.2.uniqueNumbers.length := by
  obtain ⟨m, c⟩ := acc
  simp only [wholecellOptionsStep]
  by_cases hs : item.status ≠ "Available"
  · simp only [if_pos hs]
    exact h
  · simp only [if_neg hs]
    set key := (jsOr item.product_variation.product.color "Unknown") ++ "_" ++
      wholecellVariantOf admins names item with hkey
    have hmid : ∀ p ∈ (if hasKey m key then (m, c) else
        (m ++ [(key, { color := jsOr item.product_variation.product.color "Unknown",
                       variant := wholecellVariantOf admins names item,
                       stock := 0,
                       price := priceInDollarsOf item.total_price_paid,
                       discount := priceInDollarsOf item.total_price_paid,
                       uniqueNumbers := [], oid := c })], c + 1)).1,
        p.2.stock = p.2.uniqueNumbers.length := by
      by_cases hk : hasKey m key
      · rw [if_pos hk]; exact h
      · rw [if_neg hk]
        intro p hp
        rcases List.mem_append.mp hp with hin | hin
        · exact h p hin
        · rcases List.mem_singleton.mp hin with rfl
          rfl
    refine modifyKey_forall
      (fun o : SelOpt => o.stock = o.uniqueNumbers.length) _ _ _ hmid ?_
    intro o ho
    simp only [List.length_append, List.length_singleton]
    omega

/-- The merge step preserves the invariant. -/
theorem mergeStep_inv (m : List (String × SelOpt)) (opt : SelOpt)
    (hm : ∀ p ∈ m, p.2.stock = p.2.uniqueNumbers.length)
    (ho : opt.stock = opt.uniqueNumbers.length) :
    ∀ p ∈ mergeStep m opt, p.2.stock = p.2.uniqueNumbers.length := by
  simp only [mergeStep]
  cases hg : getKey? m (optKeyOf opt) with
  | some existing =>
      obtain ⟨q, hq, hqv⟩ := getKey?_mem hg
      refine setKey_forall
        (fun o : SelOpt => o.stock = o.uniqueNumbers.length) _ _ _ hm ?_
      have hx := hm q hq
      rw [hqv] at hx
      simp only [List.length_append]
      omega
  | none =>
      exact setKey_forall
        (fun o : SelOpt => o.stock = o.uniqueNumbers.length) _ _ _ hm ho

/-! ## C10 -/

/-- C10: every option produced by either adapter's aggregation, by the
restricted adapter's update-merge, or by the zero-out map keeps its stock
count equal to the length of its unit-identifier list: aggregation pairs
each increment with one appended identifier, the merge sums stocks while
concatenating the lists, and a zero-out sets stock 0 with an empty
list. -/
theorem c10_stock_matches_unit_identifiers :
    (∀ (items : List RawItem) (c : Nat),
        ∀ o ∈ (createSelectedOptions items c).1,
          o.stock = o.uniqueNumbers.length) ∧
    (∀ (items : List RawItem) (admins : List AdminProduct) (c : Nat),
        ∀ o ∈ (createSelectedOptionsForWholecell items admins c).1,
          o.stock = o.uniqueNumbers.length) ∧
    (∀ ex new : List SelOpt,
        (∀ o ∈ ex, o.stock = o.uniqueNumbers.length) →
        (∀ o ∈ new, o.stock = o.uniqueNumbers.length) →
        ∀ o ∈ mergeSelectedOptions ex new,
          o.stock = o.uniqueNumbers.length) ∧
    (∀ o : SelOpt, (zeroOutOption o).stock = 0 ∧
        (zeroOutOption o).uniqueNumbers = [] ∧
        (zeroOutOption o).stock = (zeroOutOption o).uniqueNumbers.length) := by
  refine ⟨?_, ?_, ?_, ?_⟩
  · intro items c o ho
    simp only [createSelectedOptions, List.mem_map] at ho
    obtain ⟨p, hp, rfl⟩ := ho
    refine foldl_invariant
      (fun acc => ∀ p ∈ acc.1, p.2.stock = p.2.uniqueNumbers.length)
      createSelectedOptionsStep items ([], c)
      (fun acc it hacc => createSelectedOptionsStep_inv acc it hacc)
      (by intro p hp; cases hp) p hp
  · intro items admins c o ho
    simp only [createSelectedOptionsForWholecell, List.mem_map] at ho
    obtain ⟨p, hp, rfl⟩ := ho
    refine foldl_invariant
      (fun acc => ∀ p ∈ acc.1, p.2.stock = p.2.uniqueNumbers.length)
      (wholecellOptionsStep admins (wholecellProductNames items)) items
      ([], c)
      (fun acc it hacc =>
        wholecellOptionsStep_inv admins (wholecellProductNames items) acc it
          hacc)
      (by intro p hp; cases hp) p hp
  · intro ex new hex hnew o ho
    simp only [mergeSelectedOptions, List.mem_map] at ho
    obtain ⟨p, hp, rfl⟩ := ho
    have hbase : ∀ p ∈ ex.foldl (fun acc opt => setKey acc (optKeyOf opt) opt)
        [], p.2.stock = p.2.uniqueNumbers.length := by
      refine foldl_invariant_mem
        (fun m : List (String × SelOpt) =>
          ∀ p ∈ m, p.2.stock = p.2.uniqueNumbers.length)
        (fun acc opt => setKey acc (optKeyOf opt) opt) ex []
        ?_ (by intro p hp; cases hp)
      intro m opt hin hm
      exact setKey_forall
        (fun o : SelOpt => o.stock = o.uniqueNumbers.length) _ _ _ hm (hex opt hin)
    refine foldl_invariant_mem
      (fun m : List (String × SelOpt) =>
        ∀ p ∈ m, p.2.stock = p.2.uniqueNumbers.length)
      mergeStep new _ ?_ hbase p hp
    intro m opt hin hm
    exact mergeStep_inv m opt hm (hnew opt hin)
  · intro o
    exact ⟨rfl, rfl, rfl⟩

/-- Witness for C10: the merge conjunct applied to concrete option lists
satisfying the invariant, evaluated at the concrete merged option. -/
theorem c10_witness :
    (⟨"Black", "X", 3, 8, 8, ["a", "b", "c"], 0⟩ : SelOpt).stock =
      (⟨"Black", "X", 3, 8, 8, ["a", "b", "c"], 0⟩ : SelOpt).uniqueNumbers.length :=
  c10_stock_matches_unit_identifiers.2.2.1
    [⟨"Black", "X", 1, 10, 10, ["a"], 0⟩]
    [⟨"Black", "X", 2, 8, 8, ["b", "c"], 1⟩]
    (by decide) (by decide)
    ⟨"Black", "X", 3, 8, 8, ["a", "b", "c"], 0⟩ (by decide)

/-! ## Key-lookup lemmas for the merge analysis -/

theorem hasKey_iff_mem {α : Type} (m : List (String × α)) (k : String) :
    hasKey m k = true ↔ k ∈ keys m := by
  simp only [hasKey, keys, List.any_eq_true, List.mem_map]
  constructor
  · rintro ⟨p, hp, he⟩
    exact ⟨p, hp, by simpa using he⟩
  · rintro ⟨p, hp, he⟩
    exact ⟨p, hp, by simpa using he⟩

theorem getKey?_mem_pair {α : Type} {m : List (String × α)} {k : String}
    {v : α} (h : getKey? m k = some v) : (k, v) ∈ m := by
  simp only [getKey?] at h
  cases hf : m.find? (fun p => p.1 = k) with
  | none => rw [hf] at h; cases h
  | some q =>
      rw [hf] at h
      cases h
      have hq := List.find?_some hf
      have hmem := List.mem_of_find?_eq_some hf
      have hk : q.1 = k := by simpa using hq
      rw [← hk]
      exact hmem

theorem getKey?_eq_none_iff {α : Type} (m : List (String × α)) (k : String) :
    getKey? m k = none ↔ k ∉ keys m := by
  simp only [getKey?, Option.map_eq_none', List.find?_eq_none, keys,
    List.mem_map]
  constructor
  · intro h hk
    obtain ⟨p, hp, he⟩ := hk
    exact absurd (by simpa using he) (by simpa using h p hp)
  · intro h p hp
    simp only [decide_eq_true_eq]
    intro he
    exact h ⟨p, hp, he⟩

theorem getKey?_isSome_of_mem {α : Type} (m : List (String × α)) (k : String)
    (h : k ∈ keys m) : ∃ v, getKey? m k = some v := by
  cases hg : getKey? m k with
  | none => exact absurd h ((getKey?_eq_none_iff m k).mp hg)
  | some v => exact ⟨v, rfl⟩

theorem find?_set_self {α : Type} (k : String) (v : α) :
    ∀ (m : List (String × α)), hasKey m k = true →
      (m.map (fun p => if p.1 = k then (k, v) else p)).find?
        (fun p => p.1 = k) = some (k, v)
  | [], h => by cases h
  | p :: rest, h => by
      by_cases hp : p.1 = k
      · simp only [List.map_cons, if_pos hp]
        rw [List.find?_cons_of_pos _ (by simp)]
      · have hr : hasKey rest k = true := by
          simp only [hasKey, List.any_cons, hp] at h ⊢
          simpa using h
        simp only [List.map_cons, if_neg hp]
        rw [List.find?_cons_of_neg _ (by simpa using hp)]
        exact find?_set_self k v rest hr

theorem find?_set_ne {α : Type} (k k' : String) (v : α) (hne : k' ≠ k) :
    ∀ (m : List (String × α)),
      ((m.map (fun p => if p.1 = k then (k, v) else p)).find?
        (fun p => p.1 = k')).map (·.2) =
      (m.find? (fun p => p.1 = k')).map (·.2)
  | [] => rfl
  | p :: rest => by
      by_cases hp : p.1 = k
      · simp only [List.map_cons, if_pos hp]
        rw [List.find?_cons_of_neg _ (by simpa using fun h => hne h.symm),
          List.find?_cons_of_neg _
            (by rw [hp]; simpa using fun h => hne h.symm)]
        exact find?_set_ne k k' v hne rest
      · simp only [List.map_cons, if_neg hp]
        by_cases hpk' : p.1 = k'
        · rw [List.find?_cons_of_pos _ (by simpa using hpk'),
            List.find?_cons_of_pos _ (by simpa using hpk')]
        · rw [List.find?_cons_of_neg _ (by simpa using hpk'),
            List.find?_cons_of_neg _ (by simpa using hpk')]
          exact find?_set_ne k k' v hne rest

theorem not_hasKey_find?_none {α : Type} (m : List (String × α)) (k : String)
    (h : hasKey m k = false) : m.find? (fun p => p.1 = k) = none := by
  apply List.find?_eq_none.mpr
  intro p hp
  simp only [decide_eq_true_eq]
  intro he
  have hh : hasKey m k = true := by
    simp only [hasKey, List.any_eq_true]
    exact ⟨p, hp, by simpa using he⟩
  rw [hh] at h
  cases h

theorem getKey?_setKey_self {α : Type} (m : List (String × α)) (k : String)
    (v : α) : getKey? (setKey m k v) k = some v := by
  by_cases h : hasKey m k
  · rw [setKey, if_pos h, getKey?, find?_set_self k v m h]
    rfl
  · rw [setKey, if_neg h, getKey?, List.find?_append,
      not_hasKey_find?_none m k (by simpa using h)]
    simp only [Option.none_or]
    rw [List.find?_cons_of_pos _ (by simp)]
    rfl

theorem getKey?_setKey_ne {α : Type} (m : List (String × α)) (k k' : String)
    (v : α) (hne : k' ≠ k) : getKey? (setKey m k v) k' = getKey? m k' := by
  by_cases h : hasKey m k
  · rw [setKey, if_pos h, getKey?, getKey?]
    exact find?_set_ne k k' v hne m
  · rw [setKey, if_neg h, getKey?, List.find?_append, getKey?]
    cases hf : m.find? (fun p => p.1 = k') with
    | some q => rfl
    | none =>
        simp only [Option.none_or]
        rw [List.find?_cons_of_neg _ (by simpa using fun h2 => hne h2.symm)]
        rfl

theorem setKey_keys_of_mem {α : Type} (m : List (String × α)) (k : String)
    (v : α) (h : k ∈ keys m) : keys (setKey m k v) = keys m := by
  rw [setKey, if_pos ((hasKey_iff_mem m k).mpr h)]
  simp only [keys, List.map_map]
  apply List.map_congr_left
  intro p _
  by_cases hp : p.1 = k
  · simp [Function.comp, hp]
  · simp [Function.comp, hp]

theorem setKey_keys_of_not_mem {α : Type} (m : List (String × α))
    (k : String) (v : α) (h : k ∉ keys m) :
    keys (setKey m k v) = keys m ++ [k] := by
  rw [setKey, if_neg (fun hh => h ((hasKey_iff_mem m k).mp hh))]
  simp [keys]

theorem setKey_forall_pair {α : Type} (P : String × α → Prop)
    (m : List (String × α)) (k : String) (v : α) (hm : ∀ p ∈ m, P p)
    (hv : P (k, v)) : ∀ p ∈ setKey m k v, P p := by
  intro p hp
  simp only [setKey] at hp
  by_cases h : hasKey m k
  · rw [if_pos h] at hp
    simp only [List.mem_map] at hp
    obtain ⟨q, hq, he⟩ := hp
    subst he
    by_cases hqk : q.1 = k
    · simp only [if_pos hqk]; exact hv
    · simp only [if_neg hqk]; exact hm q hq
  · rw [if_neg h] at hp
    rcases List.mem_append.mp hp with hin | hin
    · exact hm p hin
    · rcases List.mem_singleton.mp hin with rfl
      exact hv

/-! ## The additive merge, per option key -/

theorem foldl_setKey_assoc :
    ∀ (l : List SelOpt) (m : List (String × SelOpt)),
      (∀ o ∈ l, optKeyOf o ∉ keys m) → (l.map optKeyOf).Nodup →
      l.foldl (fun acc o => setKey acc (optKeyOf o) o) m =
        m ++ l.map (fun o => (optKeyOf o, o))
  | [], m, _, _ => by simp
  | o :: rest, m, hdisj, hnd => by
      have hko : optKeyOf o ∉ keys m := hdisj o (List.mem_cons_self o rest)
      have hset : setKey m (optKeyOf o) o = m ++ [(optKeyOf o, o)] := by
        rw [setKey, if_neg (fun hh => hko ((hasKey_iff_mem _ _).mp hh))]
      have hnd' := hnd
      simp only [List.map_cons, List.nodup_cons] at hnd'
      rw [List.foldl_cons, hset,
        foldl_setKey_assoc rest (m ++ [(optKeyOf o, o)]) ?_ hnd'.2]
      · simp
      · intro o' ho' hmem
        rw [keys, List.map_append, List.mem_append] at hmem
        rcases hmem with h1 | h2
        · exact hdisj o' (List.mem_cons_of_mem o ho') h1
        · have heq : optKeyOf o' = optKeyOf o := by simpa using h2
          exact hnd'.1 (heq ▸ List.mem_map_of_mem optKeyOf ho')

theorem getKey?_assoc_of_nodup :
    ∀ (l : List SelOpt) (e : SelOpt), (l.map optKeyOf).Nodup → e ∈ l →
      getKey? (l.map (fun o => (optKeyOf o, o))) (optKeyOf e) = some e
  | [], e, _, he => by cases he
  | o :: rest, e, hnd, he => by
      simp only [List.map_cons, List.nodup_cons] at hnd
      rcases List.mem_cons.mp he with rfl | hin
      · simp only [List.map_cons, getKey?]
        rw [List.find?_cons_of_pos _ (by simp)]
        rfl
      · have hne : optKeyOf e ≠ optKeyOf o := by
          intro heq
          exact hnd.1 (heq ▸ List.mem_map_of_mem optKeyOf hin)
        simp only [List.map_cons, getKey?]
        rw [List.find?_cons_of_neg _ (by simpa using fun h => hne h.symm)]
        exact getKey?_assoc_of_nodup rest e hnd.2 hin

theorem mergeStep_getKey?_ne (m : List (String × SelOpt)) (opt : SelOpt)
    (k : String) (h : optKeyOf opt ≠ k) :
    getKey? (mergeStep m opt) k = getKey? m k := by
  simp only [mergeStep]
  cases hg : getKey? m (optKeyOf opt) with
  | some existing =>
      exact getKey?_setKey_ne _ _ _ _ (fun he => h he.symm)
  | none =>
      exact getKey?_setKey_ne _ _ _ _ (fun he => h he.symm)

theorem foldl_mergeStep_getKey?_ne :
    ∀ (l : List SelOpt) (m : List (String × SelOpt)) (k : String),
      (∀ o ∈ l, optKeyOf o ≠ k) →
      getKey? (l.foldl mergeStep m) k = getKey? m k
  | [], _, _, _ => rfl
  | o :: rest, m, k, h => by
      rw [List.foldl_cons,
        foldl_mergeStep_getKey?_ne rest (mergeStep m o) k
          (fun o' ho' => h o' (List.mem_cons_of_mem o ho')),
        mergeStep_getKey?_ne m o k (h o (List.mem_cons_self o rest))]

/-- The merged value stored under a key present in both lists. -/
theorem merge_key_lookup (ex new : List SelOpt) (e n : SelOpt)
    (hnde : (ex.map optKeyOf).Nodup) (hndn : (new.map optKeyOf).Nodup)
    (he : e ∈ ex) (hn : n ∈ new) (hk : optKeyOf e = optKeyOf n) :
    getKey? (new.foldl mergeStep
        (ex.foldl (fun acc o => setKey acc (optKeyOf o) o) []))
      (optKeyOf e) =
      some { e with
        stock := e.stock + n.stock,
        uniqueNumbers := e.uniqueNumbers ++ n.uniqueNumbers,
        price := Nat.min e.price n.price,
        discount := Nat.min e.price n.price } := by
  obtain ⟨pre, post, rfl⟩ := List.append_of_mem hn
  have hsplit : ((pre ++ n :: post).map optKeyOf).Nodup := hndn
  rw [List.map_append, List.map_cons] at hsplit
  rw [List.nodup_append] at hsplit
  obtain ⟨hndpre, hndcons, hdisj⟩ := hsplit
  rw [List.nodup_cons] at hndcons
  have hnpre : optKeyOf n ∉ pre.map optKeyOf := by
    intro hmem
    exact hdisj hmem (List.mem_cons_self _ _)
  have hpre : ∀ o ∈ pre, optKeyOf o ≠ optKeyOf e := by
    intro o ho heq
    exact hnpre (by rw [← hk, ← heq]; exact List.mem_map_of_mem optKeyOf ho)
  have hpost : ∀ o ∈ post, optKeyOf o ≠ optKeyOf e := by
    intro o ho heq
    exact hndcons.1 (by rw [← hk, ← heq]; exact List.mem_map_of_mem optKeyOf ho)
  have hass := foldl_setKey_assoc ex []
    (by intro o _ hmem; cases hmem) hnde
  rw [List.foldl_append, List.foldl_cons, hass,
    foldl_mergeStep_getKey?_ne post _ _ hpost]
  have hpreloc : getKey? (pre.foldl mergeStep
      ([] ++ ex.map (fun o => (optKeyOf o, o)))) (optKeyOf e) = some e := by
    rw [foldl_mergeStep_getKey?_ne pre _ _ hpre]
    simpa using getKey?_assoc_of_nodup ex e hnde he
  simp only [mergeStep, ← hk, hpreloc]
  rw [getKey?_setKey_self]

/-- The final merged map keeps unique keys and stores each value under its
own option key. -/
theorem mergeStep_wf (m : List (String × SelOpt)) (opt : SelOpt)
    (h1 : (keys m).Nodup) (h2 : ∀ p ∈ m, optKeyOf p.2 = p.1) :
    (keys (mergeStep m opt)).Nodup ∧
    ∀ p ∈ mergeStep m opt, optKeyOf p.2 = p.1 := by
  cases hg : getKey? m (optKeyOf opt) with
  | some existing =>
      simp only [mergeStep, hg]
      have hmem : optKeyOf opt ∈ keys m := by
        have := getKey?_mem_pair hg
        exact List.mem_map_of_mem (·.1) this
      have hcons : optKeyOf existing = optKeyOf opt :=
        h2 _ (getKey?_mem_pair hg)
      constructor
      · rw [setKey_keys_of_mem _ _ _ hmem]
        exact h1
      · refine setKey_forall_pair (fun p => optKeyOf p.2 = p.1) _ _ _ h2 ?_
        simpa [optKeyOf] using hcons
  | none =>
      simp only [mergeStep, hg]
      have hmem : optKeyOf opt ∉ keys m := (getKey?_eq_none_iff m _).mp hg
      constructor
      · rw [setKey_keys_of_not_mem _ _ _ hmem]
        simp only [List.nodup_append, List.nodup_cons, List.nodup_nil]
        refine ⟨h1, by simp, ?_⟩
        intro a ha hb
        simp only [List.mem_singleton] at hb
        subst hb
        exact hmem ha
      · refine setKey_forall_pair (fun p => optKeyOf p.2 = p.1) _ _ _ h2 rfl

theorem find?_values_of_getKey? :
    ∀ (m : List (String × SelOpt)), (keys m).Nodup →
      (∀ p ∈ m, optKeyOf p.2 = p.1) → ∀ (k : String) (v : SelOpt),
      getKey? m k = some v →
      (m.map (·.2)).find? (fun o => optKeyOf o == k) = some v
  | [], _, _, k, v, hg => by cases hg
  | (k0, v0) :: rest, hnd, hcons, k, v, hg => by
      simp only [keys, List.map_cons, List.nodup_cons] at hnd
      by_cases hk : k0 = k
      · subst hk
        simp only [getKey?] at hg
        rw [List.find?_cons_of_pos _ (by simp)] at hg
        simp only [Option.map_some'] at hg
        injection hg with hg
        subst hg
        simp only [List.map_cons]
        have hc0 : optKeyOf v0 = k0 := hcons (k0, v0) (List.mem_cons_self _ _)
        rw [List.find?_cons_of_pos _ (by simp [hc0])]
      · simp only [getKey?] at hg
        rw [List.find?_cons_of_neg _ (by simpa using hk)] at hg
        simp only [List.map_cons]
        have hc0 : optKeyOf v0 = k0 := hcons (k0, v0) (List.mem_cons_self _ _)
        rw [List.find?_cons_of_neg _ (by simp [hc0]; simpa using hk)]
        exact find?_values_of_getKey? rest hnd.2
          (fun p hp => hcons p (List.mem_cons_of_mem _ hp)) k v hg

/-! ## C2 -/

/-- C2: the restricted adapter's update-merge computes, per option key, a
stock equal to the sum of existing and new stock, a unit-identifier list
equal to the concatenation of the two lists (no deduplication), a price
equal to the minimum of the two prices, and a discount re-pinned to that
merged price; whereas the generic adapter's replace-style update path is
unreachable: on a feed that re-reports a persisted record the generic pass
throws the `ReferenceError` on its unbound `condition` while building the
record lookup, so no generic update is ever constructed. -/
theorem c2_merge_policy_per_option_key :
    (∀ (ex new : List SelOpt) (e n : SelOpt),
        (ex.map optKeyOf).Nodup → (new.map optKeyOf).Nodup →
        e ∈ ex → n ∈ new → optKeyOf e = optKeyOf n →
        (mergeSelectedOptions ex new).find?
            (fun o => optKeyOf o == optKeyOf e) =
          some { e with
            stock := e.stock + n.stock,
            uniqueNumbers := e.uniqueNumbers ++ n.uniqueNumbers,
            price := Nat.min e.price n.price,
            discount := Nat.min e.price n.price } ∧
        { e with
          stock := e.stock + n.stock,
          uniqueNumbers := e.uniqueNumbers ++ n.uniqueNumbers,
          price := Nat.min e.price n.price,
          discount := Nat.min e.price n.price } ∈
          mergeSelectedOptions ex new) ∧
    syncVendor 1 [acmeAdmin] [staleRecord] (.ok [acmeItem 1 "E1"]) 10 0 =
      .error "ReferenceError: condition is not defined" := by
  constructor
  · intro ex new e n hnde hndn he hn hk
    have hfold := merge_key_lookup ex new e n hnde hndn he hn hk
    have hass := foldl_setKey_assoc ex [] (by intro o _ hmem; cases hmem) hnde
    have hwf0 : (keys (ex.foldl (fun acc o => setKey acc (optKeyOf o) o)
        [])).Nodup ∧ ∀ p ∈ ex.foldl (fun acc o => setKey acc (optKeyOf o) o)
        [], optKeyOf p.2 = p.1 := by
      rw [hass]
      constructor
      · simpa [keys, List.map_map] using (by simpa using hnde)
      · intro p hp
        simp only [List.nil_append, List.mem_map] at hp
        obtain ⟨o, _, rfl⟩ := hp
        rfl
    have hwf : (keys (new.foldl mergeStep
        (ex.foldl (fun acc o => setKey acc (optKeyOf o) o) []))).Nodup ∧
        ∀ p ∈ new.foldl mergeStep
          (ex.foldl (fun acc o => setKey acc (optKeyOf o) o) []),
          optKeyOf p.2 = p.1 := by
      refine foldl_invariant
        (fun m : List (String × SelOpt) =>
          (keys m).Nodup ∧ ∀ p ∈ m, optKeyOf p.2 = p.1)
        mergeStep new _ ?_ hwf0
      intro m opt hm
      exact mergeStep_wf m opt hm.1 hm.2
    have hfind := find?_values_of_getKey? _ hwf.1 hwf.2 (optKeyOf e) _ hfold
    refine ⟨hfind, ?_⟩
    exact List.mem_of_find?_eq_some hfind
  · rfl

/-- Witness for C2: the per-key merge applied to concrete option lists. -/
theorem c2_witness :
    (mergeSelectedOptions [⟨"Black", "X", 1, 10, 10, ["a"], 0⟩]
        [⟨"Black", "X", 2, 8, 8, ["b", "c"], 1⟩]).find?
      (fun o => optKeyOf o ==
        optKeyOf (⟨"Black", "X", 1, 10, 10, ["a"], 0⟩ : SelOpt)) =
      some ⟨"Black", "X", 3, 8, 8, ["a", "b", "c"], 0⟩ :=
  ((c2_merge_policy_per_option_key.1
      [⟨"Black", "X", 1, 10, 10, ["a"], 0⟩]
      [⟨"Black", "X", 2, 8, 8, ["b", "c"], 1⟩]
      ⟨"Black", "X", 1, 10, 10, ["a"], 0⟩
      ⟨"Black", "X", 2, 8, 8, ["b", "c"], 1⟩
      (by decide) (by decide) (by decide) (by decide) rfl).1).trans
    (by decide)

/-! ## Wholecell validation and operation shape -/

/-- Validation splits the groups exactly: matched groups (with their
products drawn from the catalog) plus the skipped count. -/
theorem wholecellValidation_counts (admins : List AdminProduct) :
    ∀ groups : List (String × ItemGroup),
      (wholecellValidation admins groups).1.length +
        (wholecellValidation admins groups).2 = groups.length ∧
      (wholecellValidation admins groups).2 =
        (groups.filter (fun kg =>
          (findExistingProduct kg.2.product admins).isNone)).length ∧
      ∀ vg ∈ (wholecellValidation admins groups).1,
        vg.existingProduct ∈ admins ∧
        findExistingProduct vg.group.product admins = some vg.existingProduct
  | [] => by
      refine ⟨rfl, rfl, ?_⟩
      intro vg hvg
      cases hvg
  | (k, g) :: rest => by
      obtain ⟨ih1, ih2, ih3⟩ := wholecellValidation_counts admins rest
      cases hf : findExistingProduct g.product admins with
      | some p =>
          refine ⟨?_, ?_, ?_⟩
          · simp only [wholecellValidation, hf, List.length_cons]
            omega
          · simp only [wholecellValidation, hf]
            rw [List.filter_cons_of_neg (by simp [hf])]
            exact ih2
          · intro vg hvg
            simp only [wholecellValidation, hf, List.mem_cons] at hvg
            rcases hvg with rfl | hvg
            · exact ⟨c5_amended_resolver_characterization.1 _ _ _ hf, hf⟩
            · exact ih3 vg hvg
      | none =>
          refine ⟨?_, ?_, ?_⟩
          · simp only [wholecellValidation, hf, List.length_cons]
            omega
          · simp only [wholecellValidation, hf]
            rw [List.filter_cons_of_pos (by simp [hf])]
            rw [List.length_cons]
            omega
          · intro vg hvg
            simp only [wholecellValidation, hf] at hvg
            exact ih3 vg hvg

/-- One Wholecell STEP 2 iteration either emits nothing or appends exactly
one create-or-merge operation targeting the group's matched product. -/
theorem wholecellGroupStep_bulkOps (v : Nat) (admins : List AdminProduct)
    (persisted : List VendorRecord) (st : WcState) (vg : ValidGroup) :
    (wholecellGroupStep v admins persisted st vg).bulkOps = st.bulkOps ∨
    ∃ op : BulkOp, opProductRef op = some vg.existingProduct.oid ∧
      isCreateOrMergeOp op = true ∧
      (wholecellGroupStep v admins persisted st vg).bulkOps =
        st.bulkOps ++ [op] := by
  simp only [wholecellGroupStep]
  by_cases hskip :
      ((createSelectedOptionsForWholecell vg.group.items admins
        st.nextOptionId).1.isEmpty ||
      (createSelectedOptionsForWholecell vg.group.items admins
        st.nextOptionId).1.all (fun opt => opt.stock == 0)) = true
  · rw [if_pos hskip]
    left
    rfl
  · rw [if_neg hskip]
    cases hfind : persisted.find? (fun r =>
        r.vendorId == v && r.product == vg.existingProduct.oid &&
        r.condition == fixedConditionId) with
    | some ex =>
        simp only [hfind]
        right
        refine ⟨_, ?_, ?_, rfl⟩ <;> rfl
    | none =>
        simp only [hfind]
        right
        refine ⟨_, ?_, ?_, rfl⟩ <;> rfl

/-- Every operation of the Wholecell STEP 2 loop is a create-or-merge
operation referencing some validated group's product. -/
theorem wholecellLoop_ops (v : Nat) (admins : List AdminProduct)
    (persisted : List VendorRecord) (vgs : List ValidGroup) (st : WcState)
    (h0 : ∀ op ∈ st.bulkOps, isCreateOrMergeOp op = true ∧
      ∃ vg ∈ vgs, opProductRef op = some vg.existingProduct.oid) :
    ∀ op ∈ (vgs.foldl (wholecellGroupStep v admins persisted) st).bulkOps,
      isCreateOrMergeOp op = true ∧
      ∃ vg ∈ vgs, opProductRef op = some vg.existingProduct.oid := by
  refine foldl_invariant_mem
    (fun st' : WcState => ∀ op ∈ st'.bulkOps, isCreateOrMergeOp op = true ∧
      ∃ vg ∈ vgs, opProductRef op = some vg.existingProduct.oid)
    (wholecellGroupStep v admins persisted) vgs st ?_ h0
  intro st' vg hvg hst'
  rcases wholecellGroupStep_bulkOps v admins persisted st' vg with heq | hop
  · rw [heq]; exact hst'
  · obtain ⟨op', href, hshape, heq⟩ := hop
    rw [heq]
    intro op hop
    rcases List.mem_append.mp hop with hin | hin
    · exact hst' op hin
    · rcases List.mem_singleton.mp hin with rfl
      exact ⟨hshape, vg, hvg, href⟩

/-! ## C8 -/

/-- C8: in a restricted-adapter run, every group whose manufacturer/model
resolves to no catalog entry is skipped and counted under
skippedProducts (skipped + valid = all groups); no catalog product is
created (the resolver only returns existing catalog members); every
emitted operation references the product of a successfully matched group;
and the run is a total function of its inputs — a skipped group never
prevents the remaining groups from being processed. -/
theorem c8_unmatched_groups_skipped_and_counted
    (v : Nat) (admins : List AdminProduct) (persisted : List VendorRecord)
    (items : List RawItem) (c : Nat) :
    (syncWholecellCore v admins persisted items c).1.skippedProducts =
      ((groupItemsByProductAndCondition items).filter (fun kg =>
        (findExistingProduct kg.2.product admins).isNone)).length ∧
    (syncWholecellCore v admins persisted items c).1.validProducts +
        (syncWholecellCore v admins persisted items c).1.skippedProducts =
      (groupItemsByProductAndCondition items).length ∧
    (∀ pd p, findExistingProduct pd admins = some p → p ∈ admins) ∧
    (∀ op ∈ (syncWholecellCore v admins persisted items c).2,
      ∃ p ∈ admins, opProductRef op = some p.oid) := by
  obtain ⟨h1, h2, h3⟩ :=
    wholecellValidation_counts admins (groupItemsByProductAndCondition items)
  refine ⟨?_, ?_, ?_, ?_⟩
  · simpa [syncWholecellCore] using h2
  · simpa [syncWholecellCore] using h1
  · exact fun pd p h => c5_amended_resolver_characterization.1 pd admins p h
  · intro op hop
    simp only [syncWholecellCore] at hop
    have := wholecellLoop_ops v admins persisted
      (wholecellValidation admins (groupItemsByProductAndCondition items)).1
      ⟨[], 0, 0, 0, c⟩ (by intro op' h'; cases h') op hop
    obtain ⟨_, vg, hvg, href⟩ := this
    exact ⟨vg.existingProduct, (h3 vg hvg).1, href⟩

/-- Witness for C8: the operation-shape conjunct applied at a concrete run
containing one matched and one unmatched group. -/
theorem c8_witness :
    ∃ p ∈ [acmeAdmin], opProductRef
      (.insertOne ⟨1, 5, fixedConditionId,
        [⟨"Black", "128GB 4GB RAM", 1, 100, 100, ["E1"], 0⟩],
        some "wholecell"⟩) = some p.oid :=
  (c8_unmatched_groups_skipped_and_counted 1 [acmeAdmin] []
      [acmeItem 1 "E1", unknownItem] 0).2.2.2
    (.insertOne ⟨1, 5, fixedConditionId,
      [⟨"Black", "128GB 4GB RAM", 1, 100, 100, ["E1"], 0⟩],
      some "wholecell"⟩) (by decide)

/-! ## Generic pass: completion analysis -/

theorem addToGroup_ne_nil (acc : List (String × ItemGroup)) (item : RawItem) :
    addToGroup acc item ≠ [] := by
  simp only [addToGroup]
  by_cases h : hasKey acc (groupKeyOf item)
  · rw [if_pos h]
    intro he
    have : acc = [] := by
      cases acc with
      | nil => rfl
      | cons p rest => cases he
    subst this
    cases h
  · rw [if_neg h]
    simp

theorem foldl_addToGroup_ne_nil :
    ∀ (items : List RawItem) (acc : List (String × ItemGroup)), acc ≠ [] →
    items.foldl addToGroup acc ≠ []
  | [], _, h => h
  | i :: rest, acc, _ =>
      foldl_addToGroup_ne_nil rest (addToGroup acc i) (addToGroup_ne_nil acc i)

theorem grouped_ne_nil (i : RawItem) (rest : List RawItem) :
    groupItemsByProductAndCondition (i :: rest) ≠ [] := by
  simp only [groupItemsByProductAndCondition, List.foldl_cons]
  exact foldl_addToGroup_ne_nil rest (addToGroup [] i) (addToGroup_ne_nil [] i)

/-- The current-combinations rebuild fails on its first group: it
evaluates the unbound `condition`. -/
theorem syncVendorCombinations_error (k : String) (g : ItemGroup)
    (rest : List (String × ItemGroup)) (catalog : List AdminProduct)
    (n : Nat) :
    syncVendorCombinations ((k, g) :: rest) catalog n =
      .error "ReferenceError: condition is not defined" := by
  simp [syncVendorCombinations, conditionVar]

/-- Any non-empty feed aborts the generic pass with the ReferenceError. -/
theorem syncVendor_error_of_ne_nil (v : Nat) (catalog : List AdminProduct)
    (persisted : List VendorRecord) (items : List RawItem)
    (p q : Nat) (h : items ≠ []) :
    syncVendor v catalog persisted (.ok items) p q =
      .error "ReferenceError: condition is not defined" := by
  cases items with
  | nil => exact absurd rfl h
  | cons i rest =>
      cases hg : groupItemsByProductAndCondition (i :: rest) with
      | nil => exact absurd hg (grouped_ne_nil i rest)
      | cons kg rest' =>
          obtain ⟨k, g⟩ := kg
          simp only [syncVendor, hg, syncVendorCombinations_error]

/-- The zero-out fold over records, when the current-combinations set is
empty, zeroes every record. -/
theorem zeroFold_empty_combos :
    ∀ (l : List VendorRecord) (ops0 : List BulkOp) (k0 : Nat),
      l.foldl (fun (acc : List BulkOp × Nat) r =>
        if ([] : List (Nat × Nat)).contains (r.product, r.condition)
        then acc else (acc.1 ++ [zeroOutOpFor r], acc.2 + 1)) (ops0, k0) =
      (ops0 ++ l.map zeroOutOpFor, k0 + l.length)
  | [], ops0, k0 => by simp
  | r :: rest, ops0, k0 => by
      rw [List.foldl_cons]
      have hc : (([] : List (Nat × Nat)).contains (r.product, r.condition))
          = false := rfl
      rw [hc]
      simp only [Bool.false_eq_true, if_false]
      rw [zeroFold_empty_combos rest (ops0 ++ [zeroOutOpFor r]) (k0 + 1)]
      simp only [List.map_cons, List.length_cons, List.append_assoc,
        List.singleton_append, Prod.mk.injEq]
      exact ⟨trivial, by omega⟩

/-- A generic pass that completes had an empty feed, and its batch is
exactly one zero-out per persisted record of that vendor. -/
theorem syncVendor_ok_characterization (v : Nat)
    (catalog : List AdminProduct) (persisted : List VendorRecord)
    (items : List RawItem) (p q : Nat) (r : GenericSummary)
    (ops : List BulkOp)
    (h : syncVendor v catalog persisted (.ok items) p q = .ok (r, ops)) :
    items = [] ∧
    ops = (persisted.filter (fun rec => rec.vendorId == v)).map
      zeroOutOpFor := by
  cases items with
  | cons i rest =>
      rw [syncVendor_error_of_ne_nil v catalog persisted (i :: rest) p q
        (by simp)] at h
      cases h
  | nil =>
      refine ⟨rfl, ?_⟩
      simp only [syncVendor, groupItemsByProductAndCondition,
        List.foldl_nil, syncVendorGroupLoop, syncVendorCombinations] at h
      rw [zeroFold_empty_combos] at h
      rw [List.nil_append] at h
      injection h with h
      injection h with h1 h2
      exact h2.symm

/-- A create-or-merge operation is not a delete. -/
theorem isCreateOrMergeOp_not_delete (op : BulkOp)
    (h : isCreateOrMergeOp op = true) : isDeleteOp op = false := by
  cases op with
  | insertOne d => rfl
  | updateOne f u => rfl
  | deleteOne f => cases h

/-! ## C1 amended -/

/-- C1 (amended): no record is ever deleted — a completed generic pass
emits only zero-out updates for the vendor's persisted records, each of
which zeroes every option's stock and empties its unit-identifier list
while preserving the option's identity and the record's identity, and
every restricted-pass operation is an insert or a full-record update,
never a delete and never a zero-out; a generic pass moreover only
completes on an empty feed, and a restricted pass over an empty feed
emits no operations at all, leaving absent records untouched. -/
theorem c1_amended_soft_tombstone :
    (∀ (v : Nat) (catalog : List AdminProduct)
        (persisted : List VendorRecord) (items : List RawItem) (p q : Nat)
        (r : GenericSummary) (ops : List BulkOp),
        syncVendor v catalog persisted (.ok items) p q = .ok (r, ops) →
        (∀ op ∈ ops, isDeleteOp op = false) ∧
        ∀ rec ∈ persisted, rec.vendorId = v → zeroOutOpFor rec ∈ ops) ∧
    (∀ o : SelOpt, (zeroOutOption o).stock = 0 ∧
        (zeroOutOption o).uniqueNumbers = [] ∧
        (zeroOutOption o).oid = o.oid ∧
        (zeroOutOption o).color = o.color ∧
        (zeroOutOption o).variant = o.variant ∧
        (zeroOutOption o).price = o.price ∧
        (zeroOutOption o).discount = o.discount) ∧
    (∀ rec : VendorRecord, zeroOutOpFor rec =
        .updateOne (.byId rec.oid)
          (.setOptions (rec.selectedOptions.map zeroOutOption))) ∧
    (∀ (v : Nat) (admins : List AdminProduct)
        (persisted : List VendorRecord) (items : List RawItem) (c : Nat),
        ∀ op ∈ (syncWholecellCore v admins persisted items c).2,
          isCreateOrMergeOp op = true ∧ isDeleteOp op = false) ∧
    (∀ (v : Nat) (admins : List AdminProduct)
        (persisted : List VendorRecord) (c : Nat),
        (syncWholecellCore v admins persisted [] c).2 = []) := by
  refine ⟨?_, ?_, ?_, ?_, ?_⟩
  · intro v catalog persisted items p q r ops h
    obtain ⟨hitems, hops⟩ :=
      syncVendor_ok_characterization v catalog persisted items p q r ops h
    constructor
    · intro op hop
      rw [hops] at hop
      obtain ⟨rec, _, rfl⟩ := List.mem_map.mp hop
      rfl
    · intro rec hrec hv
      rw [hops]
      refine List.mem_map_of_mem zeroOutOpFor ?_
      rw [List.mem_filter]
      exact ⟨hrec, by simpa using hv⟩
  · intro o
    exact ⟨rfl, rfl, rfl, rfl, rfl, rfl, rfl⟩
  · intro rec
    rfl
  · intro v admins persisted items c op hop
    simp only [syncWholecellCore] at hop
    have := wholecellLoop_ops v admins persisted
      (wholecellValidation admins
        (groupItemsByProductAndCondition items)).1
      ⟨[], 0, 0, 0, c⟩ (by intro op' h'; cases h') op hop
    exact ⟨this.1, isCreateOrMergeOp_not_delete op this.1⟩
  · intro v admins persisted c
    rfl

/-- Witness for C1: the zero-out conjunct applied at a completed generic
pass with one persisted record. -/
theorem c1_amended_witness :
    zeroOutOpFor staleRecord ∈ [zeroOutOpFor staleRecord] :=
  ((c1_amended_soft_tombstone.1 1 [] [staleRecord] [] 0 0
      { vendorId := 1, totalFetched := 0, groupsProcessed := 0,
        newVendorProducts := 0, updatedVendorProducts := 0,
        markedAsOutOfStock := 1, totalOperations := 1 }
      [zeroOutOpFor staleRecord] (by rfl)).2 staleRecord
    (List.mem_singleton.mpr rfl) rfl)

/-! ## Generic per-group loop: containment analysis -/

theorem startsWith_refl : ∀ l : List Char, startsWith l l = true
  | [] => rfl
  | c :: cs => by simp [startsWith, startsWith_refl cs]

theorem containsSub_refl (l : List Char) : containsSub l l = true := by
  cases l with
  | nil => rfl
  | cons c cs => simp [containsSub, startsWith_refl]

theorem strIncludesCI_refl (s : String) : strIncludesCI s s = true := by
  simp [strIncludesCI, strIncludes, containsSub_refl, String.toList]

/-- After resolution, the catalog always holds a product matching the
candidate name, and nothing is ever removed from it. -/
theorem findOrCreateProduct_post (pd : RawProduct)
    (catalog : List AdminProduct) (n : Nat) :
    ((findOrCreateProduct pd catalog n).1 ∈
        (findOrCreateProduct pd catalog n).2.1 ∧
      strIncludesCI (findOrCreateProduct pd catalog n).1.name
        (candidateNameOf pd) = true) ∧
    ∀ x ∈ catalog, x ∈ (findOrCreateProduct pd catalog n).2.1 := by
  simp only [findOrCreateProduct]
  cases hf : catalog.find? (fun p => strIncludesCI p.name (candidateNameOf pd))
    with
  | some product =>
      refine ⟨⟨List.mem_of_find?_eq_some hf, by
        simpa using List.find?_some hf⟩, fun x hx => hx⟩
  | none =>
      refine ⟨⟨List.mem_append_right _ (List.mem_singleton.mpr rfl),
        strIncludesCI_refl _⟩, fun x hx => List.mem_append_left _ hx⟩

/-- One generic group step resolves its group — leaving a matching product
in the catalog — whether or not the step then fails; and the catalog only
grows. -/
theorem syncVendorGroupStep_catalog (v : Nat)
    (persisted : List VendorRecord) (st : GenState) (g : ItemGroup) :
    (∃ prod ∈ (syncVendorGroupStep v persisted st g).1.catalog,
      strIncludesCI prod.name (candidateNameOf g.product) = true) ∧
    ∀ x ∈ st.catalog, x ∈ (syncVendorGroupStep v persisted st g).1.catalog := by
  obtain ⟨⟨hmem, hmatch⟩, hmono⟩ :=
    findOrCreateProduct_post g.product st.catalog st.nextProductId
  simp only [syncVendorGroupStep, conditionVar]
  by_cases hskip :
      ((createSelectedOptions g.items st.nextOptionId).1.isEmpty ||
      (createSelectedOptions g.items st.nextOptionId).1.all
        (fun opt => opt.stock == 0)) = true
  · rw [if_pos hskip]
    exact ⟨⟨_, hmem, hmatch⟩, hmono⟩
  · rw [if_neg hskip]
    exact ⟨⟨_, hmem, hmatch⟩, hmono⟩

/-- The main loop processes every group: each group's resolution leaves a
matching product in the final catalog, even when groups before it (or the
group itself) failed. -/
theorem syncVendorGroupLoop_catalog (v : Nat)
    (persisted : List VendorRecord) :
    ∀ (groups : List (String × ItemGroup)) (st : GenState),
      (∀ kg ∈ groups,
        ∃ prod ∈ (syncVendorGroupLoop v persisted groups st).catalog,
          strIncludesCI prod.name (candidateNameOf kg.2.product) = true) ∧
      ∀ x ∈ st.catalog,
        x ∈ (syncVendorGroupLoop v persisted groups st).catalog
  | [], st => by
      refine ⟨?_, fun x hx => hx⟩
      intro kg hkg
      cases hkg
  | (k, g) :: rest, st => by
      obtain ⟨hstep, hstepmono⟩ := syncVendorGroupStep_catalog v persisted st g
      obtain ⟨hrest, hrestmono⟩ := syncVendorGroupLoop_catalog v persisted rest
        (syncVendorGroupStep v persisted st g).1
      constructor
      · intro kg hkg
        rcases List.mem_cons.mp hkg with rfl | hin
        · obtain ⟨prod, hp, hm⟩ := hstep
          exact ⟨prod, hrestmono prod hp, hm⟩
        · exact hrest kg hin
      · intro x hx
        exact hrestmono x (hstepmono x hx)

/-- A group with a stocked aggregated option always fails in the generic
per-group step, on the unbound `condition`. -/
theorem syncVendorGroupStep_error (v : Nat) (persisted : List VendorRecord)
    (st : GenState) (g : ItemGroup)
    (h : ∃ o ∈ (createSelectedOptions g.items st.nextOptionId).1,
      o.stock ≠ 0) :
    (syncVendorGroupStep v persisted st g).2 =
      .error "ReferenceError: condition is not defined" := by
  obtain ⟨o, ho, hne⟩ := h
  have hcond : ((createSelectedOptions g.items st.nextOptionId).1.isEmpty ||
      (createSelectedOptions g.items st.nextOptionId).1.all
        (fun opt => opt.stock == 0)) = false := by
    rw [Bool.or_eq_false_iff]
    constructor
    · rw [List.isEmpty_eq_false]
      exact List.ne_nil_of_mem ho
    · rw [← Bool.not_eq_true, List.all_eq_true]
      intro hall
      exact hne (by simpa using hall o ho)
  simp only [syncVendorGroupStep, conditionVar, hcond]
  rfl

/-! ## C6 amended -/

/-- C6 (amended): a failure thrown while processing a product group in the
generic adapter's main per-group loop is caught at the group boundary and
the remaining groups are still processed — every group's resolution runs
and leaves a matching catalog product — but nothing records it; every
stocked group does fail there, on the unbound `condition`; and the
current-combinations phase after the loop re-evaluates that unbound
reference outside any try block, so any non-empty feed aborts the vendor
pipeline with the very failure the loop had caught. -/
theorem c6_amended_failure_containment :
    (∀ (v : Nat) (persisted : List VendorRecord)
        (groups : List (String × ItemGroup)) (st : GenState),
        ∀ kg ∈ groups,
          ∃ prod ∈ (syncVendorGroupLoop v persisted groups st).catalog,
            strIncludesCI prod.name (candidateNameOf kg.2.product) = true) ∧
    (∀ (v : Nat) (persisted : List VendorRecord) (st : GenState)
        (g : ItemGroup),
        (∃ o ∈ (createSelectedOptions g.items st.nextOptionId).1,
          o.stock ≠ 0) →
        (syncVendorGroupStep v persisted st g).2 =
          .error "ReferenceError: condition is not defined") ∧
    (∀ (v : Nat) (catalog : List AdminProduct)
        (persisted : List VendorRecord) (items : List RawItem) (p q : Nat),
        items ≠ [] →
        syncVendor v catalog persisted (.ok items) p q =
          .error "ReferenceError: condition is not defined") := by
  refine ⟨?_, ?_, ?_⟩
  · intro v persisted groups st
    exact (syncVendorGroupLoop_catalog v persisted groups st).1
  · intro v persisted st g h
    exact syncVendorGroupStep_error v persisted st g h
  · intro v catalog persisted items p q h
    exact syncVendor_error_of_ne_nil v catalog persisted items p q h

/-- Witness for C6: after a loop over two groups — the first of which
fails on the unbound `condition` — the second group's product is still
resolved into the catalog. -/
theorem c6_amended_witness :
    ∃ prod ∈ (syncVendorGroupLoop 1 []
        (groupItemsByProductAndCondition [acmeItem 1 "E1", unknownItem])
        (genInit [] 0 0)).catalog,
      strIncludesCI prod.name
        (candidateNameOf
          (("Nova_Z9_A",
            ⟨unknownItem.product_variation.product,
             unknownItem.product_variation, "A", [unknownItem]⟩) :
            String × ItemGroup).2.product) = true :=
  c6_amended_failure_containment.1 1 []
    (groupItemsByProductAndCondition [acmeItem 1 "E1", unknownItem])
    (genInit [] 0 0)
    ("Nova_Z9_A",
      ⟨unknownItem.product_variation.product,
       unknownItem.product_variation, "A", [unknownItem]⟩)
    (by decide)

/-! ## Aggregation is deterministic up to fresh identities -/

theorem keys_of_stripEntry (m : List (String × SelOpt)) :
    keys (m.map stripEntry) = keys m := by
  simp [keys, stripEntry, List.map_map, Function.comp]

theorem hasKey_congr_of_strip :
    ∀ {m₁ m₂ : List (String × SelOpt)},
      m₁.map stripEntry = m₂.map stripEntry → ∀ k : String,
      hasKey m₁ k = hasKey m₂ k
  | [], m₂, h, k => by
      have : m₂ = [] := by
        cases m₂ with
        | nil => rfl
        | cons p r => cases h
      subst this
      rfl
  | p₁ :: r₁, m₂, h, k => by
      cases m₂ with
      | nil => cases h
      | cons p₂ r₂ =>
          simp only [List.map_cons, List.cons.injEq] at h
          have hfst : p₁.1 = p₂.1 := by
            have := congrArg Prod.fst h.1
            simpa [stripEntry] using this
          have hr := hasKey_congr_of_strip h.2 k
          simp only [hasKey] at hr
          simp only [hasKey, List.any_cons, hfst, hr]

theorem modifyKey_map_strip (m : List (String × SelOpt)) (k : String)
    (f : SelOpt → SelOpt) (hf : ∀ o, stripOpt (f o) = f (stripOpt o)) :
    (modifyKey m k f).map stripEntry =
    modifyKey (m.map stripEntry) k f := by
  simp only [modifyKey, List.map_map]
  apply List.map_congr_left
  intro p _
  by_cases hp : p.1 = k <;> simp [Function.comp, stripEntry, hp, hf]

/-- The Wholecell aggregation step respects identity-erasure: two states
equal up to fresh ids stay equal up to fresh ids. -/
theorem wholecellOptionsStep_strip (admins : List AdminProduct)
    (names : List String) (item : RawItem)
    (s t : List (String × SelOpt) × Nat)
    (h : s.1.map stripEntry = t.1.map stripEntry) :
    (wholecellOptionsStep admins names s item).1.map stripEntry =
    (wholecellOptionsStep admins names t item).1.map stripEntry := by
  obtain ⟨m₁, c₁⟩ := s
  obtain ⟨m₂, c₂⟩ := t
  simp only at h
  simp only [wholecellOptionsStep]
  by_cases hs : item.status ≠ "Available"
  · simp only [if_pos hs]
    exact h
  · simp only [if_neg hs]
    set key := (jsOr item.product_variation.product.color "Unknown") ++ "_" ++
      wholecellVariantOf admins names item
    set fInc := fun o : SelOpt => { o with
      stock := o.stock + 1,
      uniqueNumbers := o.uniqueNumbers ++ [uniqueNumberOf item] } with hfInc
    have hkcongr := hasKey_congr_of_strip h key
    by_cases hk : hasKey m₁ key
    · rw [if_pos hk, if_pos (hkcongr ▸ hk)]
      simp only
      rw [modifyKey_map_strip m₁ key fInc (fun o => rfl),
        modifyKey_map_strip m₂ key fInc (fun o => rfl), h]
    · rw [if_neg hk, if_neg (hkcongr ▸ hk)]
      simp only
      rw [modifyKey_map_strip _ key fInc (fun o => rfl),
        modifyKey_map_strip _ key fInc (fun o => rfl)]
      congr 1
      simp only [List.map_append, h]
      rfl

/-- Two aggregation passes over the same items agree up to the fresh
identities of their options. -/
theorem aggr_strip_congr (items : List RawItem) (admins : List AdminProduct)
    (c₁ c₂ : Nat) :
    (createSelectedOptionsForWholecell items admins c₁).1.map stripOpt =
    (createSelectedOptionsForWholecell items admins c₂).1.map stripOpt := by
  have hfold := foldl_rel
    (fun (s t : List (String × SelOpt) × Nat) =>
      s.1.map stripEntry = t.1.map stripEntry)
    (wholecellOptionsStep admins (wholecellProductNames items))
    (wholecellOptionsStep admins (wholecellProductNames items))
    (fun s t a h => wholecellOptionsStep_strip admins
      (wholecellProductNames items) a s t h)
    items ([], c₁) ([], c₂) rfl
  simp only [createSelectedOptionsForWholecell]
  have h1 : ∀ m : List (String × SelOpt),
      (m.map (·.2)).map stripOpt = (m.map stripEntry).map (·.2) := by
    intro m
    simp [List.map_map, stripEntry, Function.comp]
  rw [h1, h1, hfold]

/-- Every option the Wholecell aggregation keeps has stock at least 1: an
entry is created and immediately incremented within the same step. -/
theorem wholecellOptionsStep_stockpos (admins : List AdminProduct)
    (names : List String) (acc : List (String × SelOpt) × Nat)
    (item : RawItem) (h : ∀ p ∈ acc.1, 1 ≤ p.2.stock) :
    ∀ p ∈ (wholecellOptionsStep admins names acc item).1, 1 ≤ p.2.stock := by
  obtain ⟨m, c⟩ := acc
  simp only [wholecellOptionsStep]
  by_cases hs : item.status ≠ "Available"
  · simp only [if_pos hs]
    exact h
  · simp only [if_neg hs]
    set key := (jsOr item.product_variation.product.color "Unknown") ++ "_" ++
      wholecellVariantOf admins names item
    intro p hp
    simp only [modifyKey, List.mem_map] at hp
    obtain ⟨q, hq, he⟩ := hp
    subst he
    by_cases hqk : q.1 = key
    · simp only [if_pos hqk]
      omega
    · simp only [if_neg hqk]
      by_cases hk : hasKey m key
      · rw [if_pos hk] at hq
        exact h q hq
      · rw [if_neg hk] at hq
        rcases List.mem_append.mp hq with hin | hin
        · exact h q hin
        · rcases List.mem_singleton.mp hin with rfl
          exact absurd rfl hqk

theorem modifyKey_keys {α : Type} (m : List (String × α)) (k : String)
    (f : α → α) : keys (modifyKey m k f) = keys m := by
  simp only [modifyKey, keys, List.map_map]
  apply List.map_congr_left
  intro p _
  by_cases hp : p.1 = k <;> simp [Function.comp, hp]

/-- The aggregation map keeps unique keys and stores every option under
its own (color, variant) key. -/
theorem wholecellOptionsStep_wf (admins : List AdminProduct)
    (names : List String) (acc : List (String × SelOpt) × Nat)
    (item : RawItem) (h1 : (keys acc.1).Nodup)
    (h2 : ∀ p ∈ acc.1, optKeyOf p.2 = p.1) :
    (keys (wholecellOptionsStep admins names acc item).1).Nodup ∧
    ∀ p ∈ (wholecellOptionsStep admins names acc item).1,
      optKeyOf p.2 = p.1 := by
  obtain ⟨m, c⟩ := acc
  simp only [wholecellOptionsStep]
  by_cases hs : item.status ≠ "Available"
  · simp only [if_pos hs]
    exact ⟨h1, h2⟩
  · simp only [if_neg hs]
    set key := (jsOr item.product_variation.product.color "Unknown") ++ "_" ++
      wholecellVariantOf admins names item with hkey
    by_cases hk : hasKey m key
    · rw [if_pos hk]
      constructor
      · simp only [modifyKey_keys]
        exact h1
      · intro p hp
        simp only [modifyKey, List.mem_map] at hp
        obtain ⟨q, hq, he⟩ := hp
        subst he
        by_cases hqk : q.1 = key
        · simp only [if_pos hqk]
          have := h2 q hq
          simpa [optKeyOf] using this
        · simp only [if_neg hqk]
          exact h2 q hq
    · rw [if_neg hk]
      have hmid1 : (keys (m ++ [(key,
          ({ color := jsOr item.product_variation.product.color "Unknown",
             variant := wholecellVariantOf admins names item, stock := 0,
             price := priceInDollarsOf item.total_price_paid,
             discount := priceInDollarsOf item.total_price_paid,
             uniqueNumbers := [], oid := c } : SelOpt))])).Nodup := by
        simp only [keys, List.map_append]
        rw [List.nodup_append]
        refine ⟨h1, by simp, ?_⟩
        intro a ha hb
        simp only [List.map_cons, List.map_nil, List.mem_singleton] at hb
        subst hb
        exact hk ((hasKey_iff_mem m key).mpr ha)
      constructor
      · simp only [modifyKey_keys]
        exact hmid1
      · intro p hp
        simp only [modifyKey, List.mem_map] at hp
        obtain ⟨q, hq, he⟩ := hp
        subst he
        have hqmid : optKeyOf q.2 = q.1 := by
          rcases List.mem_append.mp hq with hin | hin
          · exact h2 q hin
          · rcases List.mem_singleton.mp hin with rfl
            rfl
        by_cases hqk : q.1 = key
        · simp only [if_pos hqk]
          simpa [optKeyOf] using hqmid
        · simp only [if_neg hqk]
          exact hqmid

theorem aggr_stock_pos (items : List RawItem) (admins : List AdminProduct)
    (c : Nat) :
    ∀ o ∈ (createSelectedOptionsForWholecell items admins c).1,
      1 ≤ o.stock := by
  intro o ho
  simp only [createSelectedOptionsForWholecell, List.mem_map] at ho
  obtain ⟨p, hp, rfl⟩ := ho
  exact foldl_invariant
    (fun acc : List (String × SelOpt) × Nat => ∀ p ∈ acc.1, 1 ≤ p.2.stock)
    (wholecellOptionsStep admins (wholecellProductNames items)) items
    ([], c)
    (fun acc it hacc =>
      wholecellOptionsStep_stockpos admins (wholecellProductNames items)
        acc it hacc)
    (by intro p hp; cases hp) p hp

theorem aggr_keys_nodup (items : List RawItem) (admins : List AdminProduct)
    (c : Nat) :
    ((createSelectedOptionsForWholecell items admins c).1.map
      optKeyOf).Nodup := by
  have hwf := foldl_invariant
    (fun acc : List (String × SelOpt) × Nat =>
      (keys acc.1).Nodup ∧ ∀ p ∈ acc.1, optKeyOf p.2 = p.1)
    (wholecellOptionsStep admins (wholecellProductNames items)) items
    ([], c)
    (fun acc it hacc =>
      wholecellOptionsStep_wf admins (wholecellProductNames items) acc it
        hacc.1 hacc.2)
    ⟨List.nodup_nil, by intro p hp; cases hp⟩
  simp only [createSelectedOptionsForWholecell, List.map_map]
  have : (items.foldl
      (wholecellOptionsStep admins (wholecellProductNames items))
      ([], c)).1.map (optKeyOf ∘ (·.2)) =
      keys (items.foldl
        (wholecellOptionsStep admins (wholecellProductNames items))
        ([], c)).1 := by
    apply List.map_congr_left
    intro p hp
    exact hwf.2 p hp
  rw [this]
  exact hwf.1

/-- The STEP 2 skip condition is exactly non-stockedness of the group,
independently of the fresh-id counter. -/
theorem skipCond_eq (admins : List AdminProduct) (vg : ValidGroup)
    (c : Nat) :
    ((createSelectedOptionsForWholecell vg.group.items admins c).1.isEmpty ||
      (createSelectedOptionsForWholecell vg.group.items admins c).1.all
        (fun opt => opt.stock == 0)) = !(isStocked admins vg) := by
  have hstrip := aggr_strip_congr vg.group.items admins c 0
  simp only [isStocked]
  cases hml : (createSelectedOptionsForWholecell vg.group.items admins c).1
    with
  | nil =>
      rw [hml] at hstrip
      have h0 : (createSelectedOptionsForWholecell vg.group.items admins
          0).1 = [] := by
        cases hm0 : (createSelectedOptionsForWholecell vg.group.items admins
            0).1 with
        | nil => rfl
        | cons o r =>
            rw [hm0] at hstrip
            cases hstrip
      rw [h0]
      rfl
  | cons o rest =>
      have hpos : 1 ≤ o.stock :=
        aggr_stock_pos vg.group.items admins c o
          (by rw [hml]; exact List.mem_cons_self o rest)
      have hne0 : (createSelectedOptionsForWholecell vg.group.items admins
          0).1 ≠ [] := by
        intro h0
        rw [hml, h0] at hstrip
        cases hstrip
      cases hm0 : (createSelectedOptionsForWholecell vg.group.items admins
          0).1 with
      | nil => exact absurd hm0 hne0
      | cons o' rest' =>
          simp only [List.isEmpty_cons, List.all_cons, Bool.false_or,
            Bool.not_false]
          have : (o.stock == 0) = false := by
            simp only [beq_eq_false_iff_ne, ne_eq]
            omega
          rw [this]
          rfl

/-! ## First run over a fresh store: inserts only -/

/-- Against an empty persisted set, the STEP 2 loop emits exactly one
insert per stocked valid group, in order, whose document carries the
group's vendor/product/fixed-condition key and an aggregation pass over
the group's items. -/
theorem wholecellLoop_fresh (v : Nat) (admins : List AdminProduct) :
    ∀ (vgs : List ValidGroup) (st : WcState),
      ∃ docs : List NewRecordDoc,
        (vgs.foldl (wholecellGroupStep v admins []) st).bulkOps =
          st.bulkOps ++ docs.map BulkOp.insertOne ∧
        List.Forall₂ (fun (vg : ValidGroup) (d : NewRecordDoc) =>
          d.vendorId = v ∧ d.product = vg.existingProduct.oid ∧
          d.condition = fixedConditionId ∧ d.database = some "wholecell" ∧
          ∃ c, d.selectedOptions =
            (createSelectedOptionsForWholecell vg.group.items admins c).1)
          (vgs.filter (isStocked admins)) docs
  | [], st => ⟨[], by simp, by simp⟩
  | vg :: rest, st => by
      rw [List.foldl_cons]
      by_cases hst : isStocked admins vg
      · have hstep : wholecellGroupStep v admins [] st vg =
            { st with
              nextOptionId := (createSelectedOptionsForWholecell
                vg.group.items admins st.nextOptionId).2,
              newVendorProducts := st.newVendorProducts + 1,
              bulkOps := st.bulkOps ++
                [.insertOne ⟨v, vg.existingProduct.oid, fixedConditionId,
                  (createSelectedOptionsForWholecell vg.group.items admins
                    st.nextOptionId).1, some "wholecell"⟩],
              totalStockProcessed := st.totalStockProcessed +
                ((createSelectedOptionsForWholecell vg.group.items admins
                  st.nextOptionId).1.map (·.stock)).sum } := by
          simp only [wholecellGroupStep,
            skipCond_eq admins vg st.nextOptionId, hst, Bool.not_true,
            Bool.false_eq_true, if_false, List.find?_nil]
        rw [hstep]
        obtain ⟨docs', hops', hrel'⟩ := wholecellLoop_fresh v admins rest
          { st with
            nextOptionId := (createSelectedOptionsForWholecell
              vg.group.items admins st.nextOptionId).2,
            newVendorProducts := st.newVendorProducts + 1,
            bulkOps := st.bulkOps ++
              [.insertOne ⟨v, vg.existingProduct.oid, fixedConditionId,
                (createSelectedOptionsForWholecell vg.group.items admins
                  st.nextOptionId).1, some "wholecell"⟩],
            totalStockProcessed := st.totalStockProcessed +
              ((createSelectedOptionsForWholecell vg.group.items admins
                st.nextOptionId).1.map (·.stock)).sum }
        refine ⟨⟨v, vg.existingProduct.oid, fixedConditionId,
          (createSelectedOptionsForWholecell vg.group.items admins
            st.nextOptionId).1, some "wholecell"⟩ :: docs', ?_, ?_⟩
        · rw [hops']
          simp [List.append_assoc]
        · rw [List.filter_cons_of_pos hst]
          exact List.Forall₂.cons
            ⟨rfl, rfl, rfl, rfl, st.nextOptionId, rfl⟩ hrel'
      · have hstep : wholecellGroupStep v admins [] st vg =
            { st with
              nextOptionId := (createSelectedOptionsForWholecell
                vg.group.items admins st.nextOptionId).2 } := by
          simp only [wholecellGroupStep,
            skipCond_eq admins vg st.nextOptionId,
            Bool.not_eq_true', ← Bool.not_eq_true]
          rw [if_pos (by simpa using hst)]
        rw [hstep]
        obtain ⟨docs', hops', hrel'⟩ := wholecellLoop_fresh v admins rest
          { st with
            nextOptionId := (createSelectedOptionsForWholecell
              vg.group.items admins st.nextOptionId).2 }
        refine ⟨docs', hops', ?_⟩
        rw [List.filter_cons_of_neg (by simpa using hst)]
        exact hrel'

/-- Applying a pure insert batch appends the corresponding records. -/
theorem applyOps_inserts :
    ∀ (docs : List NewRecordDoc) (recs : List VendorRecord) (n : Nat),
      applyOps recs n (docs.map BulkOp.insertOne) =
        (recs ++ mkRecs docs n, n + docs.length)
  | [], recs, n => by simp [applyOps, mkRecs]
  | d :: ds, recs, n => by
      simp only [List.map_cons, applyOps, List.foldl_cons]
      have := applyOps_inserts ds (recs ++
        [{ oid := n, vendorId := d.vendorId, product := d.product,
           condition := d.condition, selectedOptions := d.selectedOptions,
           database := d.database }]) (n + 1)
      simp only [applyOps] at this
      rw [show applyOp (recs, n) (BulkOp.insertOne d) = (recs ++
        [{ oid := n, vendorId := d.vendorId, product := d.product,
           condition := d.condition, selectedOptions := d.selectedOptions,
           database := d.database }], n + 1) from rfl, this]
      simp only [mkRecs, List.append_assoc, List.singleton_append,
        List.length_cons, Prod.mk.injEq]
      exact ⟨trivial, by omega⟩

/-- The records a fresh-store run leaves behind match its stocked valid
groups pairwise. -/
theorem mkRecs_matches (v : Nat) (admins : List AdminProduct) :
    ∀ (fvgs : List ValidGroup) (docs : List NewRecordDoc) (n : Nat),
      List.Forall₂ (fun (vg : ValidGroup) (d : NewRecordDoc) =>
        d.vendorId = v ∧ d.product = vg.existingProduct.oid ∧
        d.condition = fixedConditionId ∧ d.database = some "wholecell" ∧
        ∃ c, d.selectedOptions =
          (createSelectedOptionsForWholecell vg.group.items admins c).1)
        fvgs docs →
      List.Forall₂ (RecMatches v admins) fvgs (mkRecs docs n)
  | [], [], n, _ => by simp [mkRecs]
  | fvgs, docs, n, h => by
      cases h with
      | nil => simp [mkRecs]
      | cons hhead htail =>
          rename_i vg d fvgs' docs'
          simp only [mkRecs]
          exact List.Forall₂.cons
            ⟨hhead.1, hhead.2.1, hhead.2.2.1, hhead.2.2.2.2⟩
            (mkRecs_matches v admins fvgs' docs' (n + 1) htail)

/-- With pairwise-distinct resolved products, the record lookup of the
second run finds exactly the record the first run created for a group. -/
theorem find_matching_record (v : Nat) (admins : List AdminProduct) :
    ∀ (fvgs : List ValidGroup) (recs : List VendorRecord),
      List.Forall₂ (RecMatches v admins) fvgs recs →
      (fvgs.map (·.existingProduct.oid)).Nodup →
      ∀ vg ∈ fvgs, ∃ rec,
        recs.find? (fun r => r.vendorId == v &&
          r.product == vg.existingProduct.oid &&
          r.condition == fixedConditionId) = some rec ∧
        RecMatches v admins vg rec
  | fvgs, recs, h, hnd, vg, hvg => by
      cases h with
      | nil => cases hvg
      | cons hhead htail =>
          rename_i vg₀ rec₀ fvgs' recs'
          simp only [List.map_cons, List.nodup_cons] at hnd
          rcases List.mem_cons.mp hvg with rfl | hin
          · refine ⟨rec₀, ?_, hhead⟩
            rw [List.find?_cons_of_pos _ (by
              simp [hhead.1, hhead.2.1, hhead.2.2.1])]
          · have hne : rec₀.product ≠ vg.existingProduct.oid := by
              rw [hhead.2.1]
              intro heq
              exact hnd.1 (heq ▸ List.mem_map_of_mem
                (fun x => x.existingProduct.oid) hin)
            rw [List.find?_cons_of_neg _ (by simp [hne])]
            exact find_matching_record v admins fvgs' recs' htail hnd.2
              vg hin

/-! ## Merging a re-observation of the same option set doubles stock -/

theorem getKey?_append_right {α : Type} (m l : List (String × α))
    (k : String) (h : k ∉ keys m) : getKey? (m ++ l) k = getKey? l k := by
  have hhk : hasKey m k = false := by
    cases hh : hasKey m k with
    | false => rfl
    | true => exact absurd ((hasKey_iff_mem m k).mp hh) h
  simp only [getKey?, List.find?_append, not_hasKey_find?_none m k hhk,
    Option.none_or]

theorem setKey_unique_middle {α : Type} (m tail : List (String × α))
    (k : String) (e v : α) (hm : k ∉ keys m) (ht : k ∉ keys tail) :
    setKey (m ++ (k, e) :: tail) k v = m ++ (k, v) :: tail := by
  rw [setKey, if_pos ((hasKey_iff_mem _ k).mpr (by
    rw [keys, List.map_append, List.map_cons]
    exact List.mem_append_right _ (List.mem_cons_self _ _)))]
  have hid : ∀ (l : List (String × α)), k ∉ keys l →
      l.map (fun p => if p.1 = k then (k, v) else p) = l := by
    intro l hl
    induction l with
    | nil => rfl
    | cons p r ih =>
        rw [keys, List.map_cons] at hl
        simp only [List.mem_cons, not_or] at hl
        rw [List.map_cons, if_neg (fun he => hl.1 he.symm)]
        rw [ih (by simpa [keys] using hl.2)]
  rw [List.map_append, List.map_cons]
  rw [hid m hm, if_pos rfl, hid tail ht]

/-- Folding the merge step over a strip-equal copy of `ex`, starting from
the association map of `ex` (preceded by unrelated entries), doubles every
entry in place. -/
theorem merge_strip_self_aux :
    ∀ (ex new : List SelOpt) (m : List (String × SelOpt)),
      (ex.map optKeyOf).Nodup →
      (∀ o ∈ ex, optKeyOf o ∉ keys m) →
      new.map stripOpt = ex.map stripOpt →
      new.foldl mergeStep (m ++ ex.map (fun o => (optKeyOf o, o))) =
        m ++ ex.map (fun o => (optKeyOf o, doubleOpt o))
  | [], new, m, _, _, hstrip => by
      have hnil : new = [] := by
        cases new with
        | nil => rfl
        | cons a b => simp at hstrip
      subst hnil
      simp
  | e :: ex', new, m, hnd, hdisj, hstrip => by
      cases new with
      | nil => simp at hstrip
      | cons n new' =>
          simp only [List.map_cons, List.cons.injEq] at hstrip
          obtain ⟨hsn, hstrip'⟩ := hstrip
          obtain ⟨hkey, hstock, hprice, hu⟩ :
              optKeyOf n = optKeyOf e ∧ n.stock = e.stock ∧
              n.price = e.price ∧ n.uniqueNumbers = e.uniqueNumbers := by
            cases n
            cases e
            simp only [stripOpt, SelOpt.mk.injEq] at hsn
            obtain ⟨h1, h2, h3, h4, _, h6, _⟩ := hsn
            subst h1
            subst h2
            subst h3
            subst h4
            subst h6
            exact ⟨rfl, rfl, rfl, rfl⟩
          simp only [List.map_cons, List.nodup_cons] at hnd
          have hkext : optKeyOf e ∉ keys
              (ex'.map (fun o => (optKeyOf o, o))) := by
            intro hmem
            rw [keys, List.map_map] at hmem
            exact hnd.1 (by simpa [Function.comp] using hmem)
          rw [List.foldl_cons]
          simp only [List.map_cons]
          have hget : getKey? (m ++ (optKeyOf e, e) ::
              ex'.map (fun o => (optKeyOf o, o))) (optKeyOf n) = some e := by
            rw [hkey, getKey?_append_right _ _ _
              (hdisj e (List.mem_cons_self _ _))]
            simp only [getKey?]
            rw [List.find?_cons_of_pos _ (by simp)]
            rfl
          have hstep : mergeStep (m ++ (optKeyOf e, e) ::
              ex'.map (fun o => (optKeyOf o, o))) n =
              m ++ (optKeyOf e, doubleOpt e) ::
                ex'.map (fun o => (optKeyOf o, o)) := by
            simp only [mergeStep, hget]
            have hcomb : ({ e with
                stock := e.stock + n.stock,
                uniqueNumbers := e.uniqueNumbers ++ n.uniqueNumbers,
                price := Nat.min e.price n.price,
                discount := Nat.min e.price n.price } : SelOpt) =
                doubleOpt e := by
              simp [doubleOpt, hstock, hprice, hu, Nat.min_self]
            rw [hkey, hcomb]
            exact setKey_unique_middle m _ (optKeyOf e) e (doubleOpt e)
              (hdisj e (List.mem_cons_self _ _)) hkext
          rw [hstep,
            show m ++ (optKeyOf e, doubleOpt e) ::
                ex'.map (fun o => (optKeyOf o, o)) =
              (m ++ [(optKeyOf e, doubleOpt e)]) ++
                ex'.map (fun o => (optKeyOf o, o)) by simp,
            merge_strip_self_aux ex' new'
              (m ++ [(optKeyOf e, doubleOpt e)]) hnd.2 ?_ hstrip']
          · simp
          · intro o ho hmem
            rw [keys, List.map_append] at hmem
            rcases List.mem_append.mp hmem with h1 | h2
            · exact hdisj o (List.mem_cons_of_mem _ ho) h1
            · have heq : optKeyOf o = optKeyOf e := by simpa using h2
              exact hnd.1 (heq ▸ List.mem_map_of_mem optKeyOf ho)

/-- Merging an option list with a re-aggregation of itself (equal up to
fresh identities) doubles each option's stock, self-concatenates its unit
identifiers, keeps its price, and re-pins discount to that price. -/
theorem merge_strip_self (ex new : List SelOpt)
    (hnd : (ex.map optKeyOf).Nodup)
    (hstrip : new.map stripOpt = ex.map stripOpt) :
    mergeSelectedOptions ex new = ex.map doubleOpt := by
  simp only [mergeSelectedOptions]
  rw [foldl_setKey_assoc ex [] (by intro o _ hm; cases hm) hnd,
    merge_strip_self_aux ex new [] hnd (by intro o _ hm; cases hm) hstrip]
  simp [List.map_map, Function.comp]

/-! ## Second run over the state the first run left -/

/-- When every stocked group's key lookup finds a record matching it, the
STEP 2 loop creates nothing and emits only doubling update-merges of the
found records. -/
theorem wholecellLoop_second (v : Nat) (admins : List AdminProduct)
    (s₁ : List VendorRecord) :
    ∀ (vgs : List ValidGroup) (st : WcState),
      (∀ vg ∈ vgs, isStocked admins vg = true →
        ∃ rec, s₁.find? (fun r => r.vendorId == v &&
            r.product == vg.existingProduct.oid &&
            r.condition == fixedConditionId) = some rec ∧
          RecMatches v admins vg rec) →
      (vgs.foldl (wholecellGroupStep v admins s₁) st).newVendorProducts =
        st.newVendorProducts ∧
      ∃ ups : List BulkOp,
        (vgs.foldl (wholecellGroupStep v admins s₁) st).bulkOps =
          st.bulkOps ++ ups ∧
        ∀ u ∈ ups, ∃ rec ∈ s₁,
          u = .updateOne (.byKey v rec.product rec.condition)
            (.setRecord v rec.product rec.condition
              (rec.selectedOptions.map doubleOpt) (some "wholecell"))
  | [], st, _ => ⟨rfl, [], by simp, by intro u hu; cases hu⟩
  | vg :: rest, st, hfind => by
      rw [List.foldl_cons]
      by_cases hst : isStocked admins vg
      · obtain ⟨rec, hrec, hmatch⟩ :=
          hfind vg (List.mem_cons_self _ _) hst
        obtain ⟨c₀, hopts⟩ := hmatch.2.2.2
        have hmerge : mergeSelectedOptions rec.selectedOptions
            (createSelectedOptionsForWholecell vg.group.items admins
              st.nextOptionId).1 = rec.selectedOptions.map doubleOpt := by
          apply merge_strip_self
          · rw [hopts]
            exact aggr_keys_nodup vg.group.items admins c₀
          · rw [hopts]
            exact aggr_strip_congr vg.group.items admins st.nextOptionId c₀
        have hstep : wholecellGroupStep v admins s₁ st vg = { st with
            nextOptionId := (createSelectedOptionsForWholecell
              vg.group.items admins st.nextOptionId).2,
            updatedVendorProducts := st.updatedVendorProducts + 1,
            bulkOps := st.bulkOps ++
              [.updateOne (.byKey v vg.existingProduct.oid fixedConditionId)
                (.setRecord v vg.existingProduct.oid fixedConditionId
                  (mergeSelectedOptions rec.selectedOptions
                    (createSelectedOptionsForWholecell vg.group.items admins
                      st.nextOptionId).1) (some "wholecell"))],
            totalStockProcessed := st.totalStockProcessed +
              ((createSelectedOptionsForWholecell vg.group.items admins
                st.nextOptionId).1.map (·.stock)).sum } := by
          simp only [wholecellGroupStep,
            skipCond_eq admins vg st.nextOptionId, hst, Bool.not_true,
            Bool.false_eq_true, if_false, hrec]
        rw [hstep]
        obtain ⟨ihnew, ups', hops', hups'⟩ :=
          wholecellLoop_second v admins s₁ rest
            { st with
              nextOptionId := (createSelectedOptionsForWholecell
                vg.group.items admins st.nextOptionId).2,
              updatedVendorProducts := st.updatedVendorProducts + 1,
              bulkOps := st.bulkOps ++
                [.updateOne (.byKey v vg.existingProduct.oid
                    fixedConditionId)
                  (.setRecord v vg.existingProduct.oid fixedConditionId
                    (mergeSelectedOptions rec.selectedOptions
                      (createSelectedOptionsForWholecell vg.group.items
                        admins st.nextOptionId).1) (some "wholecell"))],
              totalStockProcessed := st.totalStockProcessed +
                ((createSelectedOptionsForWholecell vg.group.items admins
                  st.nextOptionId).1.map (·.stock)).sum }
            (fun vg' hvg' => hfind vg' (List.mem_cons_of_mem _ hvg'))
        refine ⟨ihnew, .updateOne (.byKey v vg.existingProduct.oid
            fixedConditionId)
          (.setRecord v vg.existingProduct.oid fixedConditionId
            (mergeSelectedOptions rec.selectedOptions
              (createSelectedOptionsForWholecell vg.group.items admins
                st.nextOptionId).1) (some "wholecell")) :: ups', ?_, ?_⟩
        · rw [hops']
          simp [List.append_assoc]
        · intro u hu
          rcases List.mem_cons.mp hu with rfl | hin
          · refine ⟨rec, List.mem_of_find?_eq_some hrec, ?_⟩
            rw [hmerge, hmatch.2.1, hmatch.2.2.1]
          · exact hups' u hin
      · have hstep : wholecellGroupStep v admins s₁ st vg = { st with
            nextOptionId := (createSelectedOptionsForWholecell
              vg.group.items admins st.nextOptionId).2 } := by
          simp only [wholecellGroupStep,
            skipCond_eq admins vg st.nextOptionId]
          rw [if_pos (by simpa using hst)]
        rw [hstep]
        exact wholecellLoop_second v admins s₁ rest _
          (fun vg' hvg' => hfind vg' (List.mem_cons_of_mem _ hvg'))

theorem updateFirst_length (f : RecFilter) (u : RecUpdate) :
    ∀ recs : List VendorRecord, (updateFirst f u recs).length = recs.length
  | [] => rfl
  | r :: rest => by
      simp only [updateFirst]
      by_cases h : matchesFilter f r
      · rw [if_pos h]
        rfl
      · rw [if_neg h]
        simp [updateFirst_length f u rest]

/-- A batch of updates never changes how many records are persisted. -/
theorem applyOps_updates_length :
    ∀ (ops : List BulkOp) (recs : List VendorRecord) (n : Nat),
      (∀ op ∈ ops, ∃ f u, op = .updateOne f u) →
      (applyOps recs n ops).1.length = recs.length
  | [], _, _, _ => rfl
  | op :: rest, recs, n, h => by
      obtain ⟨f, u, rfl⟩ := h op (List.mem_cons_self _ _)
      simp only [applyOps, List.foldl_cons]
      have := applyOps_updates_length rest (updateFirst f u recs) n
        (fun op' hop' => h op' (List.mem_cons_of_mem _ hop'))
      simp only [applyOps] at this
      rw [show applyOp (recs, n) (BulkOp.updateOne f u) =
        (updateFirst f u recs, n) from rfl, this, updateFirst_length]

/-! ## C3 -/

/-- C3: starting from a store holding no records, running the restricted
pipeline twice over an unchanged feed (whose stocked groups resolve to
pairwise-distinct products) produces a second run with zero creates whose
every operation merges a first-run record's option set with its own
re-aggregation: per option, stock doubles (first-run stock plus the
re-observed equal stock), the unit-identifier list is self-concatenated,
the price is unchanged and discount is re-pinned to it — and applying the
second batch adds no new (product, condition) records. -/
theorem c3_unchanged_feed_second_run (v : Nat) (admins : List AdminProduct)
    (items : List RawItem) (c₁ c₂ n₀ n₁ : Nat)
    (hnd : (((wholecellValidation admins
        (groupItemsByProductAndCondition items)).1.filter
        (isStocked admins)).map (·.existingProduct.oid)).Nodup) :
    (syncWholecellCore v admins
        (applyOps [] n₀ (syncWholecellCore v admins [] items c₁).2).1 items
        c₂).1.newVendorProducts = 0 ∧
    (∀ op ∈ (syncWholecellCore v admins
        (applyOps [] n₀ (syncWholecellCore v admins [] items c₁).2).1 items
        c₂).2,
      ∃ rec ∈ (applyOps [] n₀ (syncWholecellCore v admins [] items c₁).2).1,
        op = .updateOne (.byKey v rec.product rec.condition)
          (.setRecord v rec.product rec.condition
            (rec.selectedOptions.map doubleOpt) (some "wholecell"))) ∧
    (applyOps (applyOps [] n₀ (syncWholecellCore v admins [] items c₁).2).1
        n₁ (syncWholecellCore v admins
          (applyOps [] n₀ (syncWholecellCore v admins [] items c₁).2).1
          items c₂).2).1.length =
      (applyOps [] n₀ (syncWholecellCore v admins [] items c₁).2).1.length
    := by
  set s₁ := (applyOps [] n₀ (syncWholecellCore v admins [] items c₁).2).1
    with hs1def
  obtain ⟨docs, hops1, hrel⟩ := wholecellLoop_fresh v admins
    (wholecellValidation admins (groupItemsByProductAndCondition items)).1
    ⟨[], 0, 0, 0, c₁⟩
  have hcore1 : (syncWholecellCore v admins [] items c₁).2 =
      docs.map BulkOp.insertOne := by
    simp only [syncWholecellCore]
    rw [hops1]
    rfl
  have hs₁ : s₁ = mkRecs docs n₀ := by
    rw [hs1def, hcore1, applyOps_inserts]
    rfl
  have hmatches : List.Forall₂ (RecMatches v admins)
      ((wholecellValidation admins
        (groupItemsByProductAndCondition items)).1.filter
        (isStocked admins)) (mkRecs docs n₀) :=
    mkRecs_matches v admins _ docs n₀ hrel
  have hfindall : ∀ vg ∈ (wholecellValidation admins
      (groupItemsByProductAndCondition items)).1,
      isStocked admins vg = true →
      ∃ rec, s₁.find?
          (fun r => r.vendorId == v &&
            r.product == vg.existingProduct.oid &&
            r.condition == fixedConditionId) = some rec ∧
        RecMatches v admins vg rec := by
    intro vg hvg hstk
    rw [hs₁]
    exact find_matching_record v admins _ _ hmatches hnd vg
      (List.mem_filter.mpr ⟨hvg, hstk⟩)
  obtain ⟨hnew, ups, hops2, hups⟩ := wholecellLoop_second v admins s₁
    (wholecellValidation admins (groupItemsByProductAndCondition items)).1
    ⟨[], 0, 0, 0, c₂⟩ hfindall
  have hcore2ops : (syncWholecellCore v admins s₁ items c₂).2 = ups := by
    simp only [syncWholecellCore]
    rw [hops2]
    rfl
  refine ⟨?_, ?_, ?_⟩
  · simp only [syncWholecellCore]
    exact hnew
  · intro op hop
    rw [hcore2ops] at hop
    exact hups op hop
  · rw [hcore2ops]
    apply applyOps_updates_length
    intro op hop
    obtain ⟨rec, _, rfl⟩ := hups op hop
    exact ⟨_, _, rfl⟩

/-- Witness for C3: the theorem applied to the concrete two-item Acme feed
against the one-product catalog. -/
theorem c3_witness :
    (syncWholecellCore 1 [acmeAdmin]
        (applyOps [] 100 (syncWholecellCore 1 [acmeAdmin] []
          [acmeItem 1 "E1", acmeItem 2 "E2"] 0).2).1
        [acmeItem 1 "E1", acmeItem 2 "E2"] 50).1.newVendorProducts = 0 :=
  (c3_unchanged_feed_second_run 1 [acmeAdmin]
    [acmeItem 1 "E1", acmeItem 2 "E2"] 0 50 100 200 (by decide)).1

end TepSync
